import Mathlib

/-!
Shallow embedding of the `strongvelope` chat-message encryption module
(`src/unnamed/part_001`) and verification of its specification claims.

JavaScript binary strings are modelled as `List Nat` (one entry per char
code).  External cryptographic library functions (asmCrypto AES, nacl
Ed25519/Curve25519, SHA-256) and text codecs are abstracted as fields of a
`Prims` structure; theorems state the algebraic facts they rely on
(inverse properties, signature correctness) as explicit hypotheses.  The
ambient public-key directories `pubCu25519` / `pubEd25519` are passed as a
`Dirs` structure.  `Date.now()`-derived day stamps and `getRandomValues`
are passed in as explicit `today : Nat` and `r : Nat → Nat` parameters.
-/

set_option autoImplicit false

namespace Strongvelope

/-- A JavaScript (binary) string: list of char codes. -/
abbrev Str := List Nat

/-- Char codes of the string "null" (JS coerces `null` used as a property
key or in string concatenation to this string). -/
def jsNullStr : Str := [110, 117, 108, 108]

/-- Char codes of the string "undefined" (JS coerces `undefined` used as a
property key or in string concatenation to this string). -/
def jsUndefinedStr : Str := [117, 110, 100, 101, 102, 105, 110, 101, 100]

/-- JS property-key coercion for a possibly-`null` string value. -/
def jsKey : Option Str → Str
  | none => jsNullStr
  | some s => s

/-- JS string-concatenation coercion for a possibly-`null` value. -/
def jsStrN : Option Str → Str
  | none => jsNullStr
  | some s => s

/-- JS string-concatenation coercion for a possibly-`undefined` value. -/
def jsStrU : Option Str → Str
  | none => jsUndefinedStr
  | some s => s

/-! ### Association lists (JS plain objects used as maps) -/

/-- Lookup in an association list (JS property read). -/
def alookup {α : Type} : List (Str × α) → Str → Option α
  | [], _ => none
  | (k, v) :: rest, key => if k = key then some v else alookup rest key

/-- Insert/overwrite in an association list (JS property write). -/
def ainsert {α : Type} : List (Str × α) → Str → α → List (Str × α)
  | [], key, v => [(key, v)]
  | (k, w) :: rest, key, v =>
    if k = key then (key, v) :: rest else (k, w) :: ainsert rest key v

/-- Remove a key (models a JS property write of `undefined`, which is
indistinguishable from absence for every read the module performs). -/
def aerase {α : Type} : List (Str × α) → Str → List (Str × α)
  | [], _ => []
  | (k, w) :: rest, key =>
    if k = key then aerase rest key else (k, w) :: aerase rest key

/-- The `participantKeys` store: participant handle → (key ID → sender key). -/
abbrev Store := List (Str × List (Str × Str))

/-- Two-level lookup `participantKeys[u][k]`. -/
def alookup2 (st : Store) (u k : Str) : Option Str :=
  (alookup st u).bind (fun m => alookup m k)

/-- `if (!this.participantKeys[u]) { this.participantKeys[u] = {}; }` -/
def ensureParticipant (st : Store) (u : Str) : Store :=
  match alookup st u with
  | some _ => st
  | none => ainsert st u []

/-- Two-level write `participantKeys[u][k] = v` (the outer map is created
if absent; the source guarantees it exists for every write it performs). -/
def insert2 (st : Store) (u k v : Str) : Store :=
  match alookup st u with
  | some m => ainsert st u (ainsert m k v)
  | none => ainsert st u (ainsert [] k v)

/-- Two-level write of `undefined` (observable as removal). -/
def erase2 (st : Store) (u k : Str) : Store :=
  match alookup st u with
  | some m => ainsert st u (aerase m k)
  | none => st

/-! ### External primitives and ambient key directories -/

/-- External cryptographic and codec primitives used by the module
(asmCrypto AES-CTR / AES-CBC / SHA-256, nacl Ed25519 / Curve25519,
base64url codec of the surrounding webclient, and the UTF-8 text codec
`unescape(encodeURIComponent(·))` / `decodeURIComponent(escape(·))`). -/
structure Prims where
  sha256 : Str → Str
  b64enc : Str → Str
  b64dec : Str → Str
  aesCtrEnc : Str → Str → Str → Str
  aesCtrDec : Str → Str → Str → Str
  aesCbcEnc : Str → Str → Str → Str
  aesCbcDec : Str → Str → Str → Str
  scalarMult : Str → Str → Str
  edSign : Str → Str → Str
  edVerify : Str → Str → Str → Bool
  utf8enc : Str → Str
  utf8dec : Str → Option Str

/-- Ambient public-key directories (`pubCu25519`, `pubEd25519` globals). -/
structure Dirs where
  pubCu25519 : Str → Option Str
  pubEd25519 : Str → Option Str

/-! ### Constants (source lines 25–50, 83–125) -/

def NONCE_SIZE : Nat := 12
def KEY_SIZE : Nat := 16
def IV_SIZE : Nat := 16
def KEY_ID_SIZE : Nat := 4
def PROTOCOL_VERSION : Nat := 0
def ROTATE_KEY_EVERY : Nat := 16
def SEND_KEY_EVERY_RECEIVED : Nat := 24
def SECRET_KEY_SIZE : Nat := 16

namespace TLV
def SIGNATURE : Nat := 1
def MESSAGE_TYPE : Nat := 2
def NONCE : Nat := 3
def RECIPIENT : Nat := 4
def KEYS : Nat := 5
def KEY_IDS : Nat := 6
def PAYLOAD : Nat := 7
end TLV

def GROUP_KEYED : Nat := 0
def GROUP_FOLLOWUP : Nat := 1
def SIMPLE_TWO_PARTY : Nat := 2

/-- Failure conditions.  The source reports every failure of `decryptFrom`
to its caller as the single value `false` (collapsing the cause) and
signals some conditions by throwing; the constructors record the check
site at which a run fails, matching the distinct `logger.error` /
`throw` / `assert` sites of the source. -/
inductive SvError where
  | malformedMessage
  | unsupportedVersion
  | invalidSignature
  | keyConflict
  | unknownSenderKey
  | decryptionFailed
  | unknownPeerKey
  | lengthMismatch
  | assertFailed
  | typeError
deriving DecidableEq, Repr

/-! ### TLV codec

Modelled from the spec: `tlvstore.toTlvRecord` / `tlvstore.splitSingleTlvRecord`
are code of this repository not included under `src/`; per spec §4.1/§6 a
record is `type:1 byte, length:2 bytes (big-endian), value:<length> bytes`
and parsing fails on a truncated length/value. -/

/-- Modelled from the spec: `tlvstore.toTlvRecord` — one TLV record,
`[type:1][length:2 big-endian][value]`. -/
def toTlvRecord (t : Nat) (v : Str) : Str :=
  t :: (v.length / 256 % 256) :: (v.length % 256) :: v

/-- Modelled from the spec: `tlvstore.splitSingleTlvRecord` — splits the
first TLV record off a byte string, failing on truncation. -/
def splitSingleTlvRecord : Str → Option ((Nat × Str) × Str)
  | t :: l1 :: l2 :: rest =>
    let len := l1 * 256 + l2
    if len ≤ rest.length then some ((t, rest.take len), rest.drop len) else none
  | _ => none

/-- Full TLV split of a byte string into records, fuelled for structural
recursion (fuel `s.length + 1` always suffices: each record consumes at
least three bytes). -/
def tlvRecordsF : Nat → Str → Option (List (Nat × Str))
  | 0, _ => none
  | _ + 1, [] => some []
  | f + 1, s =>
    match splitSingleTlvRecord s with
    | none => none
    | some ((t, v), rest) => (tlvRecordsF f rest).map (fun l => (t, v) :: l)

/-- The record sequence of a TLV stream (`none` when malformed). -/
def tlvRecords (s : Str) : Option (List (Nat × Str)) :=
  tlvRecordsF (s.length + 1) s

/-! ### Key identifier scheme (source lines 128–175) -/

/-- `str_to_a32(keyId)[0]` for a 4-char string: big-endian 32-bit word.
(The JS helper combines the shifted char codes with `|`; for byte-valued
strings — every key ID the module produces — the shifted fields are
disjoint, so `|` coincides with `+`.) -/
def str_to_a32 (s : Str) : Nat :=
  s.getD 0 0 * 16777216 + s.getD 1 0 * 65536 + s.getD 2 0 * 256 + s.getD 3 0

/-- `a32_to_str([w])`: big-endian bytes of a 32-bit word. -/
def a32_to_str (w : Nat) : Str :=
  [w / 16777216 % 256, w / 65536 % 256, w / 256 % 256, w % 256]

/-- `strongvelope._splitKeyId`: date stamp is `keyIdNumber >>> 16`,
counter is `keyIdNumber & 0xffff`. -/
def _splitKeyId (keyId : Str) : Nat × Nat :=
  let keyIdNumber := str_to_a32 keyId
  (keyIdNumber / 65536 % 65536, keyIdNumber % 65536)

/-- `strongvelope._encodeKeyId`: `(dateStamp << 16) | counter` encoded as
4 bytes (the JS 32-bit coercion keeps the low 16 bits of each field for
the in-range values the module passes). -/
def _encodeKeyId (dateStamp counter : Nat) : Str :=
  a32_to_str (dateStamp % 65536 * 65536 + counter % 65536)

/-! ### Symmetric cipher and signature wrappers (source lines 178–315) -/

/-- `n` bytes drawn from the random stream `r` starting at offset `off`
(models `asmCrypto.getRandomValues`). -/
def randBytes (r : Nat → Nat) (off n : Nat) : Str :=
  (List.range n).map (fun i => r (off + i))

structure EncRes where
  ciphertext : Str
  key : Str
  nonce : Str
deriving DecidableEq, Repr

/-- `strongvelope._symmetricEncryptMessage`: AES-128-CTR; a missing key or
nonce is freshly generated (key first, then nonce, from the same random
source); a supplied nonce is truncated to `NONCE_SIZE`. -/
def _symmetricEncryptMessage (P : Prims) (r : Nat → Nat) (message : Str)
    (key nonce : Option Str) : EncRes :=
  let keyBytes := match key with
    | some k => k
    | none => randBytes r 0 KEY_SIZE
  let nOff := match key with
    | some _ => 0
    | none => KEY_SIZE
  let nonceBytes := match nonce with
    | some n => n.take NONCE_SIZE
    | none => randBytes r nOff NONCE_SIZE
  { ciphertext := P.aesCtrEnc (P.utf8enc message) keyBytes nonceBytes,
    key := keyBytes, nonce := nonceBytes }

/-- `strongvelope._symmetricDecryptMessage`: AES-128-CTR decrypt followed
by UTF-8 text decoding; `none` models the `return false` on `URIError`. -/
def _symmetricDecryptMessage (P : Prims) (cipher key nonce : Str) : Option Str :=
  P.utf8dec (P.aesCtrDec cipher key (nonce.take NONCE_SIZE))

/-- `strongvelope._signMessage`: detached Ed25519 signature over the
message with key bytes `privKey + pubKey`. -/
def _signMessage (P : Prims) (message privKey pubKey : Str) : Str :=
  P.edSign message (privKey ++ pubKey)

/-- `strongvelope._verifyMessage`. -/
def _verifyMessage (P : Prims) (message signature pubKey : Str) : Bool :=
  P.edVerify message signature pubKey

/-! ### Message parsing (source lines 328–389) -/

structure ParsedMessage where
  protocolVersion : Option Nat
  signature : Option Str
  signedContent : Str
  type : Option Nat
  nonce : Option Str
  recipients : List Str
  keys : List Str
  keyIds : List Str
  payload : Option Str
deriving DecidableEq, Repr

/-- Chunking helper: splits a string into consecutive pieces of `sz`
chars (the final piece may be shorter), as the `while`/`substring` loops
of the source do. -/
def chunkAux (sz : Nat) : Str → Nat → Str → List Str
  | [], _, acc => if acc.isEmpty then [] else [acc]
  | c :: cs, n, acc =>
    if n ≤ 1 then (acc ++ [c]) :: chunkAux sz cs sz []
    else chunkAux sz cs (n - 1) (acc ++ [c])

def strChunks (sz : Nat) (s : Str) : List Str :=
  chunkAux sz s sz []

/-- The `switch (tlvType)` body of `_parseMessageContent` for one record
(`rest` is the stream remainder after the record, recorded as
`signedContent` by the SIGNATURE case).  A record of unmapped type writes
only the unobservable property named "undefined" and is a no-op here. -/
def applyRecord (P : Prims) (t : Nat) (v rest : Str) (pc : ParsedMessage) : ParsedMessage :=
  if t = TLV.SIGNATURE then { pc with signature := some v, signedContent := rest }
  else if t = TLV.MESSAGE_TYPE then { pc with type := v.head? }
  else if t = TLV.RECIPIENT then { pc with recipients := pc.recipients ++ [P.b64enc v] }
  else if t = TLV.KEYS then { pc with keys := pc.keys ++ [v] }
  else if t = TLV.KEY_IDS then { pc with keyIds := pc.keyIds ++ strChunks KEY_ID_SIZE v }
  else if t = TLV.NONCE then { pc with nonce := some v }
  else if t = TLV.PAYLOAD then { pc with payload := some v }
  else pc

/-- The record loop of `_parseMessageContent`, fuelled for structural
recursion (fuel `s.length + 1` always suffices).  Fails on a record whose
type code is below its predecessor (`tlvType < lastTlvType`; the initial
`lastTlvType = -1` never triggers, so `0` is an equivalent start). -/
def parseLoopF (P : Prims) : Nat → Str → Nat → ParsedMessage → Option ParsedMessage
  | 0, _, _, _ => none
  | _ + 1, [], _, pc => some pc
  | f + 1, s, last, pc =>
    match splitSingleTlvRecord s with
    | none => none
    | some ((t, v), rest) =>
      if t < last then none
      else parseLoopF P f rest t (applyRecord P t v rest pc)

/-- `strongvelope._parseMessageContent`: version byte, record loop, then
the RECIPIENT/KEYS count check. -/
def _parseMessageContent (P : Prims) (binaryMessage : Str) : Option ParsedMessage :=
  let rest := binaryMessage.tail
  match parseLoopF P (rest.length + 1) rest 0
      { protocolVersion := binaryMessage.head?, signature := none, signedContent := [],
        type := none, nonce := none, recipients := [], keys := [], keyIds := [],
        payload := none } with
  | none => none
  | some pc =>
    if 0 < pc.recipients.length ∧ pc.recipients.length ≠ pc.keys.length then none
    else some pc

/-! ### Protocol handler state (source lines 453–472) -/

structure Handler where
  ownHandle : Str
  privCu25519 : Str
  privEd25519 : Str
  pubEd25519 : Str
  rotateKeyEvery : Nat
  sendKeyEveryReceived : Nat
  keyEncryptionCount : Nat
  keyId : Option Str
  previousKeyId : Option Str
  sentKeyId : Option Str
  participants : List Str
  participantKeys : Store
deriving DecidableEq, Repr

/-- `strongvelope.ProtocolHandler` constructor, with all key material
passed explicitly (the source falls back to ambient globals and can
derive `pubEd25519` from the private key via an external helper when it
is omitted; claims only concern explicitly constructed handlers). -/
def ProtocolHandler (ownHandle privCu25519 privEd25519 pubEd25519 : Str) : Handler :=
  { ownHandle := ownHandle, privCu25519 := privCu25519,
    privEd25519 := privEd25519, pubEd25519 := pubEd25519,
    rotateKeyEvery := ROTATE_KEY_EVERY,
    sendKeyEveryReceived := SEND_KEY_EVERY_RECEIVED,
    keyEncryptionCount := 0, keyId := none, previousKeyId := none,
    sentKeyId := none, participants := [],
    participantKeys := [(ownHandle, [])] }

/-- A successfully decrypted message (`StrongvelopeMessage`); `type` is
`none` when the wire message carried no MESSAGE_TYPE record (the source
then returns `undefined` in the field). -/
structure StrongvelopeMessage where
  sender : Str
  type : Option Nat
  payload : Str
deriving DecidableEq, Repr

/-! ### Key rotation (source lines 485–518) -/

/-- `ProtocolHandler.prototype._updateSenderKey`: derive the next key ID
from `today` and the current key ID (same day: counter + 1 mod 2^16; new
day: counter 0; no current key: counter 0), store a fresh random sender
key under it, reset the per-key counter.  `_sentKeyId` is not touched. -/
def _updateSenderKey (today : Nat) (r : Nat → Nat) (h : Handler) : Handler :=
  let dc : Nat × Nat :=
    match h.keyId with
    | some kid =>
      if kid = [] then (today, 0)
      else
        let comp := _splitKeyId kid
        if today ≠ comp.1 then (today, 0) else (comp.1, (comp.2 + 1) % 65536)
    | none => (today, 0)
  let newPrev : Option Str :=
    match h.keyId with
    | some kid => if kid = [] then h.previousKeyId else some kid
    | none => h.previousKeyId
  let newKeyId := _encodeKeyId dc.1 dc.2
  { h with keyId := some newKeyId,
           previousKeyId := newPrev,
           participantKeys :=
             insert2 h.participantKeys h.ownHandle newKeyId
               (randBytes r 0 SECRET_KEY_SIZE),
           keyEncryptionCount := 0 }

/-! ### Pairwise key agreement and key wrapping (source lines 535–628) -/

/-- `ProtocolHandler.prototype._computeSymmetricKey`: Curve25519 DH with
the cached public chat key, hashed with SHA-256; throws when the peer key
is not cached (JS falsy check, so an empty cached key also throws). -/
def _computeSymmetricKey (P : Prims) (D : Dirs) (privCu25519 userhandle : Str) :
    Except SvError Str :=
  match D.pubCu25519 userhandle with
  | none => .error .unknownPeerKey
  | some pubKey =>
    if pubKey = [] then .error .unknownPeerKey
    else .ok (P.sha256 (P.scalarMult privCu25519 pubKey))

/-- `ProtocolHandler.prototype._encryptKeysFor`: concatenate the keys and
AES-CBC-encrypt them under the first 16 bytes of the pairwise key, with
IV `SHA256(base64urldecode(destination) + nonce)[0..16]`. -/
def _encryptKeysFor (P : Prims) (D : Dirs) (privCu25519 : Str)
    (keys : List Str) (nonce destination : Str) : Except SvError Str :=
  if keys.length = 0 then .error .assertFailed
  else
    match _computeSymmetricKey P D privCu25519 destination with
    | .error e => .error e
    | .ok sym =>
      let clearText := keys.foldl (fun a k => a ++ k) []
      let ivBytes := (P.sha256 (P.b64dec destination ++ nonce)).take IV_SIZE
      let keyBytes := sym.take KEY_SIZE
      .ok (P.aesCbcEnc clearText keyBytes ivBytes)

/-- `ProtocolHandler.prototype._decryptKeysFor`: inverse of
`_encryptKeysFor`; the IV receiver is the other party when decrypting a
message we sent ourselves, else our own handle.  Asserts the decrypted
length is a multiple of 16 and splits into 16-byte keys. -/
def _decryptKeysFor (P : Prims) (D : Dirs) (ownHandle privCu25519 : Str)
    (encryptedKeys nonce otherParty : Str) (iAmSender : Bool) :
    Except SvError (List Str) :=
  let receiver := if iAmSender then otherParty else ownHandle
  match _computeSymmetricKey P D privCu25519 otherParty with
  | .error e => .error e
  | .ok sym =>
    let ivBytes := (P.sha256 (P.b64dec receiver ++ nonce)).take IV_SIZE
    let keyBytes := sym.take KEY_SIZE
    let clear := P.aesCbcDec encryptedKeys keyBytes ivBytes
    if clear.length % KEY_SIZE = 0 then .ok (strChunks KEY_SIZE clear)
    else .error .lengthMismatch

/-! ### Encrypt path (source lines 641–705) -/

/-- `ProtocolHandler.prototype.encryptTo`.  Returns the wire bytes (or
the thrown failure) together with the handler state after the call; JS
exceptions leave already-performed mutations in place, which the returned
state reflects.  A `null` key ID reaching `tlvstore.toTlvRecord` faults
(`value.length` on `null`), modelled as `typeError`. -/
def encryptTo (P : Prims) (D : Dirs) (today : Nat) (r : Nat → Nat)
    (h : Handler) (message destination : Str) :
    Except SvError Str × Handler :=
  let rotate := h.rotateKeyEvery ≤ h.keyEncryptionCount
  let h1 := if rotate then _updateSenderKey today r h else h
  let r1 : Nat → Nat := if rotate then (fun i => r (i + SECRET_KEY_SIZE)) else r
  let senderKey := alookup2 h1.participantKeys h1.ownHandle (jsKey h1.keyId)
  let em := _symmetricEncryptMessage P r1 message senderKey none
  if h1.sentKeyId = h1.keyId then
    -- follow-up message: no RECIPIENT/KEYS records
    let content := toTlvRecord TLV.MESSAGE_TYPE [GROUP_FOLLOWUP]
                ++ toTlvRecord TLV.NONCE em.nonce
    match h1.keyId with
    | none => (.error .typeError, h1)
    | some kid =>
      let content := content ++ toTlvRecord TLV.KEY_IDS kid
                  ++ toTlvRecord TLV.PAYLOAD em.ciphertext
      let signature := _signMessage P content h1.privEd25519 h1.pubEd25519
      let content := toTlvRecord TLV.SIGNATURE signature ++ content
      (.ok (PROTOCOL_VERSION :: content),
       { h1 with keyEncryptionCount := h1.keyEncryptionCount + 1 })
  else
    -- keyed message: wrap current (and previous, if set) sender key
    let keysIncluded : List (Option Str) := [senderKey]
    let keyIdsVar : Option Str := h1.keyId
    let kk : List (Option Str) × Option Str :=
      match h1.previousKeyId with
      | some pk =>
        if pk = [] then (keysIncluded, keyIdsVar)
        else (keysIncluded ++ [alookup2 h1.participantKeys h1.ownHandle pk],
              some (jsStrN h1.keyId ++ pk))
      | none => (keysIncluded, keyIdsVar)
    match _encryptKeysFor P D h1.privCu25519 (kk.1.map jsStrU) em.nonce destination with
    | .error e => (.error e, h1)
    | .ok enc =>
      let content := toTlvRecord TLV.MESSAGE_TYPE [GROUP_KEYED]
                  ++ toTlvRecord TLV.NONCE em.nonce
      if enc = [] then
        -- `if (encryptedKeys)` is a truthiness test: an empty wrapped-key
        -- string falls through to the follow-up-shaped record layout
        match h1.keyId with
        | none => (.error .typeError, h1)
        | some kid =>
          let content := content ++ toTlvRecord TLV.KEY_IDS kid
                      ++ toTlvRecord TLV.PAYLOAD em.ciphertext
          let signature := _signMessage P content h1.privEd25519 h1.pubEd25519
          let content := toTlvRecord TLV.SIGNATURE signature ++ content
          (.ok (PROTOCOL_VERSION :: content),
           { h1 with keyEncryptionCount := h1.keyEncryptionCount + 1 })
      else
        let content := content ++ toTlvRecord TLV.RECIPIENT (P.b64dec destination)
                    ++ toTlvRecord TLV.KEYS enc
        let h2 := { h1 with sentKeyId := h1.keyId }
        match kk.2 with
        | none => (.error .typeError, h2)
        | some kis =>
          let content := content ++ toTlvRecord TLV.KEY_IDS kis
                      ++ toTlvRecord TLV.PAYLOAD em.ciphertext
          let signature := _signMessage P content h2.privEd25519 h2.pubEd25519
          let content := toTlvRecord TLV.SIGNATURE signature ++ content
          (.ok (PROTOCOL_VERSION :: content),
           { h2 with keyEncryptionCount := h2.keyEncryptionCount + 1 })

/-! ### Decrypt path (source lines 719–809) -/

/-- The sender-key cache update loop of `decryptFrom` (source lines
766–777): for each unwrapped key, conflict-check then write.  Returns the
store as mutated so far together with the failure, if any. -/
def cacheLoopGo (sender : Str) (ids : List Str) :
    List Str → Nat → Store → Store × Option SvError
  | [], _, st => (st, none)
  | k :: ks, i, st =>
    let id := ids.getD i jsUndefinedStr
    match alookup2 st sender id with
    | some prev =>
      if prev ≠ [] ∧ prev ≠ k then (st, some .keyConflict)
      else cacheLoopGo sender ids ks (i + 1) (insert2 st sender id k)
    | none => cacheLoopGo sender ids ks (i + 1) (insert2 st sender id k)

/-- Payload decryption and result assembly (source lines 793–808). -/
def decryptPayload (P : Prims) (pm : ParsedMessage) (senderKey sender : Str)
    (h : Handler) : Except SvError StrongvelopeMessage × Handler :=
  match pm.payload, pm.nonce with
  | some payload, some nonce =>
    match _symmetricDecryptMessage P payload senderKey nonce with
    | none => (.error .decryptionFailed, h)
    | some txt => (.ok { sender := sender, type := pm.type, payload := txt }, h)
  | _, _ => (.error .typeError, h)

/-- `ProtocolHandler.prototype.decryptFrom`.  Returns the result (the
source collapses every failure to the caller-visible value `false`; the
error constructor records the failing check site) together with the
handler state after the call — mutations performed before a failure
persist, as they do in the source. -/
def decryptFrom (P : Prims) (D : Dirs) (h : Handler) (message sender : Str) :
    Except SvError StrongvelopeMessage × Handler :=
  match _parseMessageContent P message with
  | none => (.error .malformedMessage, h)
  | some pm =>
    if pm.protocolVersion ≠ some PROTOCOL_VERSION then (.error .unsupportedVersion, h)
    else
      match D.pubEd25519 sender, pm.signature with
      | none, _ => (.error .typeError, h)
      | some _, none => (.error .typeError, h)
      | some pubKey, some sig =>
        if ¬ _verifyMessage P pm.signedContent sig pubKey then
          (.error .invalidSignature, h)
        else
          let keyId := pm.keyIds.getD 0 jsUndefinedStr
          if 0 < pm.keys.length then
            let isOwnMessage := sender = h.ownHandle
            let otherHandle :=
              if isOwnMessage then pm.recipients.getD 0 jsUndefinedStr else sender
            match _decryptKeysFor P D h.ownHandle h.privCu25519
                (pm.keys.getD 0 []) (jsStrU pm.nonce) otherHandle isOwnMessage with
            | .error e => (.error e, h)
            | .ok decryptedKeys =>
              let senderKey := decryptedKeys.head?
              let st0 := ensureParticipant h.participantKeys sender
              let lp := cacheLoopGo sender pm.keyIds decryptedKeys 0 st0
              match lp.2 with
              | some e => (.error e, { h with participantKeys := lp.1 })
              | none =>
                let st1 :=
                  match senderKey with
                  | some sk => insert2 lp.1 sender keyId sk
                  | none => erase2 lp.1 sender keyId
                let h1 := { h with participantKeys := st1 }
                match senderKey with
                | none => (.error .typeError, h1)
                | some sk => decryptPayload P pm sk sender h1
          else
            match alookup2 h.participantKeys sender keyId with
            | some sk =>
              if sk = [] then (.error .unknownSenderKey, h)
              else decryptPayload P pm sk sender h
            | none => (.error .unknownSenderKey, h)

/-- The caller-visible return value of `decryptFrom` in the source: the
decrypted message object on success, the boolean `false` (here `none`) on
every failure, whatever its cause. -/
def decryptFromJS (P : Prims) (D : Dirs) (h : Handler) (message sender : Str) :
    Option StrongvelopeMessage :=
  (decryptFrom P D h message sender).1.toOption

/-! ## Statement-side definitions and concrete fixtures -/

/-- Concatenation of TLV-encoded records. -/
def encodeRecs (rs : List (Nat × Str)) : Str :=
  rs.foldr (fun tv acc => toTlvRecord tv.1 tv.2 ++ acc) []

/-- Specification of the record loop on a canonically encoded stream:
structural recursion over the record list. -/
def processRecs (P : Prims) : List (Nat × Str) → Nat → ParsedMessage → Option ParsedMessage
  | [], _, pc => some pc
  | (t, v) :: rs, last, pc =>
    if t < last then none
    else processRecs P rs t (applyRecord P t v (encodeRecs rs) pc)

/-- The ordering predicate enforced by the parse loop: type codes must be
non-decreasing, starting from `last`. -/
def typesOrdered : Nat → List Nat → Bool
  | _, [] => true
  | last, t :: ts => if t < last then false else typesOrdered t ts

def tPrims : Prims :=
  { sha256 := fun s => (s ++ List.replicate 32 7).take 32,
    b64enc := fun s => s,
    b64dec := fun s => s,
    aesCtrEnc := fun m _ _ => m.map (fun x => x + 1),
    aesCtrDec := fun c _ _ => c.map (fun x => x - 1),
    aesCbcEnc := fun m _ _ => m,
    aesCbcDec := fun c _ _ => c,
    scalarMult := fun _ _ => [3, 1, 4, 1, 5],
    edSign := fun _ _ => [9, 9],
    edVerify := fun _ _ _ => true,
    utf8enc := fun s => s,
    utf8dec := fun s => some s }

def tDirs : Dirs :=
  { pubCu25519 := fun _ => some [21], pubEd25519 := fun _ => some [22] }

/-- Handle of the test sender ("A"). -/
def hndA : Str := [65]

/-- Handle of the test receiver ("B"). -/
def hndB : Str := [66]

/-- A receiver-side handler for handle `hndB` with an empty cache. -/
def tReceiver : Handler := ProtocolHandler hndB [30] [31] [32]

/-- A sender-side handler for `hndA` holding a current sender key. -/
def tSender : Handler :=
  { ProtocolHandler hndA [40] [41] [42] with
      keyId := some (_encodeKeyId 100 0),
      participantKeys := [(hndA, [(_encodeKeyId 100 0, List.replicate 16 55)])] }

/-- A wire message carrying a KEY_IDS record (type 6) before a NONCE
record (type 3). -/
def msgC7 : Str :=
  PROTOCOL_VERSION :: (toTlvRecord TLV.KEY_IDS [0, 100, 0, 0]
    ++ toTlvRecord TLV.NONCE (List.replicate 12 1))

/-- The signed content assembled by `encryptTo` for a keyed message (the
records in the order the source concatenates them). -/
def keyedWireContent (nonce rcpt enc kids ct : Str) : Str :=
  toTlvRecord TLV.MESSAGE_TYPE [GROUP_KEYED] ++ toTlvRecord TLV.NONCE nonce
    ++ toTlvRecord TLV.RECIPIENT rcpt ++ toTlvRecord TLV.KEYS enc
    ++ toTlvRecord TLV.KEY_IDS kids ++ toTlvRecord TLV.PAYLOAD ct

/-- The full keyed wire message assembled by `encryptTo`. -/
def keyedWireMsg (P : Prims) (privEd pubEd nonce rcpt enc kids ct : Str) : Str :=
  PROTOCOL_VERSION :: (toTlvRecord TLV.SIGNATURE
      (P.edSign (keyedWireContent nonce rcpt enc kids ct) (privEd ++ pubEd))
    ++ keyedWireContent nonce rcpt enc kids ct)

/-- The signed content of a minimal keyed wire message asserting the
single wrapped key blob `enc` for key ID `kid` (no RECIPIENT record —
the count check passes with zero recipients). -/
def keyedContent (n enc kid : Str) : Str :=
  toTlvRecord TLV.MESSAGE_TYPE [GROUP_KEYED] ++ toTlvRecord TLV.NONCE n
    ++ toTlvRecord TLV.KEYS enc ++ toTlvRecord TLV.KEY_IDS kid

/-- The minimal keyed wire message with signature `sig`. -/
def keyedMsg (sig n enc kid : Str) : Str :=
  PROTOCOL_VERSION :: (toTlvRecord TLV.SIGNATURE sig ++ keyedContent n enc kid)

/-- A key ID and key values for the conflict fixtures. -/
def kid0 : Str := _encodeKeyId 300 0

def vOld16 : Str := List.replicate 16 7

def kNew16 : Str := List.replicate 16 8

def nonce12 : Str := List.replicate 12 1

/-- A receiver handler for `hndB` that has already cached `kid0 ↦ vOld16`
for sender `hndA`. -/
def tCachedReceiver : Handler :=
  { ProtocolHandler hndB [30] [31] [32] with
      participantKeys := [(hndB, []), (hndA, [(kid0, vOld16)])] }

/-- Key IDs and keys for the two-key conflict scenario. -/
def idA : Str := _encodeKeyId 301 0

def idB : Str := _encodeKeyId 301 1

def k1c : Str := List.replicate 16 3

def k2c : Str := List.replicate 16 4

/-- A receiver that has cached only `(hndA, idB) ↦ vOld16`. -/
def hC5 : Handler :=
  { ProtocolHandler hndB [30] [31] [32] with
      participantKeys := [(hndB, []), (hndA, [(idB, vOld16)])] }

/-- A keyed message asserting two keys: a fresh one for `idA` and a
conflicting one for the cached `idB`. -/
def msgC5 : Str := keyedMsg [9, 9] nonce12 (k1c ++ k2c) (idA ++ idB)

/-- The key-ID derivation performed by `_updateSenderKey` for an existing
(nonempty) current key ID, factored as a pure function of the day and the
previous key ID. -/
def nextKeyId (today : Nat) (kid : Str) : Str :=
  if today ≠ (_splitKeyId kid).1 then _encodeKeyId today 0
  else _encodeKeyId (_splitKeyId kid).1 (((_splitKeyId kid).2 + 1) % 65536)

/-- The handler used for the C3 counterexample: the counter has reached
the threshold and the current key has been transported. -/
def hC3 : Handler :=
  { tSender with keyEncryptionCount := 16,
                 sentKeyId := some (_encodeKeyId 100 0) }

/-! ## Lemma infrastructure -/

/-! ### Association-list lemmas -/

theorem alookup_ainsert_self {α : Type} (m : List (Str × α)) (k : Str) (v : α) :
    alookup (ainsert m k v) k = some v := by
  induction m with
  | nil => simp [ainsert, alookup]
  | cons p rest ih =>
    by_cases hp : p.1 = k
    · simp [ainsert, hp, alookup]
    · simp [ainsert, hp, alookup, ih]

theorem alookup_ainsert_ne {α : Type} (m : List (Str × α)) (k k2 : Str) (v : α)
    (hne : k ≠ k2) : alookup (ainsert m k v) k2 = alookup m k2 := by
  induction m with
  | nil => simp [ainsert, alookup, hne]
  | cons p rest ih =>
    by_cases hp : p.1 = k
    · simp [ainsert, hp, alookup, hne]
    · simp [ainsert, hp, alookup, ih]

theorem alookup_aerase_self {α : Type} (m : List (Str × α)) (k : Str) :
    alookup (aerase m k) k = none := by
  induction m with
  | nil => simp [aerase, alookup]
  | cons p rest ih =>
    by_cases hp : p.1 = k
    · simp [aerase, hp, ih]
    · simp [aerase, hp, alookup, ih]

theorem alookup_aerase_ne {α : Type} (m : List (Str × α)) (k k2 : Str)
    (hne : k ≠ k2) : alookup (aerase m k) k2 = alookup m k2 := by
  induction m with
  | nil => simp [aerase]
  | cons p rest ih =>
    by_cases hp : p.1 = k
    · have : ¬ p.1 = k2 := by rw [hp]; exact hne
      simp [aerase, hp, alookup, this, ih, hne]
    · simp [aerase, hp, alookup, ih]

/-! ### Store lemmas -/

theorem alookup_insert2_other (st : Store) (u k v : Str) (u2 : Str)
    (hne : u ≠ u2) : alookup (insert2 st u k v) u2 = alookup st u2 := by
  unfold insert2
  cases alookup st u <;> simp [alookup_ainsert_ne _ _ _ _ hne]

theorem alookup2_insert2_self (st : Store) (u k v : Str) :
    alookup2 (insert2 st u k v) u k = some v := by
  unfold insert2 alookup2
  cases h : alookup st u <;>
    simp [alookup_ainsert_self, alookup_ainsert_self]

theorem alookup2_insert2_ne_key (st : Store) (u k v : Str) (k2 : Str)
    (hne : k ≠ k2) : alookup2 (insert2 st u k v) u k2 = alookup2 st u k2 := by
  unfold insert2 alookup2
  cases h : alookup st u <;>
    simp [alookup_ainsert_self, alookup_ainsert_ne _ _ _ _ hne, h, alookup, hne]

theorem alookup2_insert2_other (st : Store) (u k v : Str) (u2 k2 : Str)
    (hne : u ≠ u2) : alookup2 (insert2 st u k v) u2 k2 = alookup2 st u2 k2 := by
  unfold alookup2
  rw [alookup_insert2_other st u k v u2 hne]

theorem alookup_erase2_other (st : Store) (u k : Str) (u2 : Str)
    (hne : u ≠ u2) : alookup (erase2 st u k) u2 = alookup st u2 := by
  unfold erase2
  cases alookup st u <;> simp [alookup_ainsert_ne _ _ _ _ hne]

theorem alookup2_erase2_self (st : Store) (u k : Str) :
    alookup2 (erase2 st u k) u k = none := by
  unfold erase2 alookup2
  cases h : alookup st u <;>
    simp [h, alookup_ainsert_self, alookup_aerase_self]

theorem alookup2_erase2_ne_key (st : Store) (u k : Str) (k2 : Str)
    (hne : k ≠ k2) : alookup2 (erase2 st u k) u k2 = alookup2 st u k2 := by
  unfold erase2 alookup2
  cases h : alookup st u <;>
    simp [h, alookup_ainsert_self, alookup_aerase_ne _ _ _ hne]

theorem alookup_ensureParticipant_other (st : Store) (u u2 : Str)
    (hne : u ≠ u2) : alookup (ensureParticipant st u) u2 = alookup st u2 := by
  unfold ensureParticipant
  cases alookup st u <;> simp [alookup_ainsert_ne _ _ _ _ hne]

theorem alookup2_ensureParticipant (st : Store) (u : Str) (u2 k : Str) :
    alookup2 (ensureParticipant st u) u2 k = alookup2 st u2 k := by
  unfold ensureParticipant alookup2
  cases h : alookup st u with
  | some m => rfl
  | none =>
    by_cases hu : u = u2
    · subst hu; rw [h, alookup_ainsert_self]; simp [alookup]
    · rw [alookup_ainsert_ne _ _ _ _ hu]

/-! ### Chunking lemmas -/

theorem chunkAux_nil (sz n : Nat) : chunkAux sz [] n [] = [] := rfl

theorem strChunks_nil (sz : Nat) : strChunks sz [] = [] := rfl

theorem chunkAux_cons (sz c : Nat) (cs : Str) (n : Nat) (acc : Str) :
    chunkAux sz (c :: cs) n acc =
      if n ≤ 1 then (acc ++ [c]) :: chunkAux sz cs sz []
      else chunkAux sz cs (n - 1) (acc ++ [c]) := rfl

theorem chunkAux_exact (sz : Nat) :
    ∀ (a b acc : Str) (n : Nat), n = a.length → 0 < n →
      chunkAux sz (a ++ b) n acc = (acc ++ a) :: chunkAux sz b sz [] := by
  intro a
  induction a with
  | nil =>
    intro b acc n hn h0
    subst hn
    simp at h0
  | cons c cs ih =>
    intro b acc n hn h0
    subst hn
    cases cs with
    | nil => simp [chunkAux_cons]
    | cons d ds =>
      rw [List.cons_append, chunkAux_cons]
      have hgt : ¬ ((c :: d :: ds).length ≤ 1) := by simp
      rw [if_neg hgt]
      have step := ih b (acc ++ [c]) ((c :: d :: ds).length - 1) (by simp) (by simp)
      rw [step]
      simp

theorem strChunks_append (sz : Nat) (a b : Str) (ha : a.length = sz)
    (h0 : 0 < sz) : strChunks sz (a ++ b) = a :: strChunks sz b := by
  unfold strChunks
  rw [chunkAux_exact sz a b [] sz ha.symm h0]
  simp

theorem strChunks_exact (sz : Nat) (a : Str) (ha : a.length = sz)
    (h0 : 0 < sz) : strChunks sz a = [a] := by
  have h := strChunks_append sz a [] ha h0
  rw [List.append_nil] at h
  rw [h, strChunks_nil]

/-! ### Key-ID arithmetic -/

theorem splitKeyId_encodeKeyId (d c : Nat) (hd : d < 65536) (hc : c < 65536) :
    _splitKeyId (_encodeKeyId d c) = (d, c) := by
  unfold _splitKeyId _encodeKeyId a32_to_str str_to_a32
  simp only [List.getD_cons_zero, List.getD_cons_succ, Prod.mk.injEq]
  constructor <;> omega

theorem encodeKeyId_inj (d c d2 c2 : Nat) (hd : d < 65536) (hc : c < 65536)
    (hd2 : d2 < 65536) (hc2 : c2 < 65536)
    (he : _encodeKeyId d c = _encodeKeyId d2 c2) : d = d2 ∧ c = c2 := by
  have h1 := splitKeyId_encodeKeyId d c hd hc
  have h2 := splitKeyId_encodeKeyId d2 c2 hd2 hc2
  rw [he, h2] at h1
  exact ⟨(Prod.mk.injEq _ _ _ _ ▸ h1).1.symm, (Prod.mk.injEq _ _ _ _ ▸ h1).2.symm⟩

theorem encodeKeyId_length (d c : Nat) : (_encodeKeyId d c).length = 4 := by
  rfl

theorem encodeKeyId_ne_nil (d c : Nat) : _encodeKeyId d c ≠ [] := by
  intro h
  have := congrArg List.length h
  simp [encodeKeyId_length] at this

/-! ### TLV parsing lemmas -/

theorem toTlvRecord_length (t : Nat) (v : Str) :
    (toTlvRecord t v).length = v.length + 3 := by
  simp [toTlvRecord]

theorem splitSingleTlvRecord_append (t : Nat) (v rest : Str)
    (hv : v.length < 65536) :
    splitSingleTlvRecord (toTlvRecord t v ++ rest) = some ((t, v), rest) := by
  show splitSingleTlvRecord
      (t :: (v.length / 256 % 256) :: (v.length % 256) :: (v ++ rest)) = _
  unfold splitSingleTlvRecord
  have hlen : v.length / 256 % 256 * 256 + v.length % 256 = v.length := by omega
  simp only [hlen]
  rw [if_pos (by simp)]
  rw [List.take_left, List.drop_left]

theorem splitSingleTlvRecord_shrink (s : Str) (t : Nat) (v rest : Str)
    (h : splitSingleTlvRecord s = some ((t, v), rest)) :
    rest.length < s.length := by
  match s with
  | [] => simp [splitSingleTlvRecord] at h
  | [a] => simp [splitSingleTlvRecord] at h
  | [a, b] => simp [splitSingleTlvRecord] at h
  | a :: b :: c2 :: r =>
    simp only [splitSingleTlvRecord] at h
    by_cases hle : b * 256 + c2 ≤ r.length
    · rw [if_pos hle] at h
      simp only [Option.some.injEq, Prod.mk.injEq] at h
      obtain ⟨⟨_, _⟩, hr⟩ := h
      subst hr
      have : (r.drop (b * 256 + c2)).length ≤ r.length := by simp
      simp only [List.length_cons]
      omega
    · rw [if_neg hle] at h
      exact absurd h (by simp)

/-- Fuel irrelevance for the parse loop: any fuel above the stream length
gives the same result. -/
theorem parseLoopF_irrel (P : Prims) :
    ∀ (f g : Nat) (s : Str) (last : Nat) (pc : ParsedMessage),
      s.length < f → s.length < g →
      parseLoopF P f s last pc = parseLoopF P g s last pc := by
  intro f
  induction f with
  | zero => intro g s last pc hf; omega
  | succ f ih =>
    intro g s last pc hf hg
    match g, hg with
    | g + 1, hg =>
      cases s with
      | nil => rfl
      | cons c cs =>
        show parseLoopF P (f + 1) (c :: cs) last pc
            = parseLoopF P (g + 1) (c :: cs) last pc
        unfold parseLoopF
        cases hsp : splitSingleTlvRecord (c :: cs) with
        | none => rfl
        | some p =>
          obtain ⟨⟨t, v⟩, rest⟩ := p
          have hshrink := splitSingleTlvRecord_shrink _ _ _ _ hsp
          simp only
          have hsh2 : rest.length < cs.length + 1 := by simpa using hshrink
          have hf2 : cs.length + 1 < f + 1 := by simpa using hf
          have hg2 : cs.length + 1 < g + 1 := by simpa using hg
          by_cases hord : t < last
          · rw [if_pos hord, if_pos hord]
          · rw [if_neg hord, if_neg hord]
            exact ih g rest t _ (by omega) (by omega)

theorem tlvRecordsF_irrel :
    ∀ (f g : Nat) (s : Str),
      s.length < f → s.length < g → tlvRecordsF f s = tlvRecordsF g s := by
  intro f
  induction f with
  | zero => intro g s hf; omega
  | succ f ih =>
    intro g s hf hg
    match g, hg with
    | g + 1, hg =>
      cases s with
      | nil => rfl
      | cons c cs =>
        show tlvRecordsF (f + 1) (c :: cs) = tlvRecordsF (g + 1) (c :: cs)
        unfold tlvRecordsF
        cases hsp : splitSingleTlvRecord (c :: cs) with
        | none => rfl
        | some p =>
          obtain ⟨⟨t, v⟩, rest⟩ := p
          have hshrink := splitSingleTlvRecord_shrink _ _ _ _ hsp
          have hsh2 : rest.length < cs.length + 1 := by simpa using hshrink
          have hf2 : cs.length + 1 < f + 1 := by simpa using hf
          have hg2 : cs.length + 1 < g + 1 := by simpa using hg
          simp only
          rw [ih g rest (by omega) (by omega)]

theorem encodeRecs_cons (t : Nat) (v : Str) (rs : List (Nat × Str)) :
    encodeRecs ((t, v) :: rs) = toTlvRecord t v ++ encodeRecs rs := rfl

theorem encodeRecs_nil : encodeRecs [] = [] := rfl

/-- On a canonically encoded record stream the fuelled parse loop computes
`processRecs`, provided every record value fits the two-byte length. -/
theorem parseLoopF_encodeRecs (P : Prims) :
    ∀ (recs : List (Nat × Str)) (f last : Nat) (pc : ParsedMessage),
      (∀ tv ∈ recs, (tv.2 : Str).length < 65536) →
      (encodeRecs recs).length < f →
      parseLoopF P f (encodeRecs recs) last pc = processRecs P recs last pc := by
  intro recs
  induction recs with
  | nil =>
    intro f last pc _ hf
    match f, hf with
    | f + 1, _ => rfl
  | cons tv rs ih =>
    intro f last pc hv hf
    obtain ⟨t, v⟩ := tv
    match f, hf with
    | f + 1, hf =>
      rw [encodeRecs_cons] at hf ⊢
      have hvlen : v.length < 65536 := hv (t, v) (by simp)
      have hne : toTlvRecord t v ++ encodeRecs rs ≠ [] := by
        simp [toTlvRecord]
      match hrep : toTlvRecord t v ++ encodeRecs rs, hne with
      | c :: cs, _ =>
        show parseLoopF P (f + 1) (c :: cs) last pc = _
        unfold parseLoopF
        rw [← hrep, splitSingleTlvRecord_append t v _ hvlen]
        simp only [processRecs]
        by_cases hord : t < last
        · rw [if_pos hord, if_pos hord]
        · rw [if_neg hord, if_neg hord]
          refine ih f t _ (fun tv2 htv2 => hv tv2 (by simp [htv2])) ?_
          simp only [List.length_append, toTlvRecord_length] at hf
          omega

/-- `tlvRecords` of a canonically encoded stream recovers the records. -/
theorem tlvRecordsF_encodeRecs :
    ∀ (recs : List (Nat × Str)) (f : Nat),
      (∀ tv ∈ recs, (tv.2 : Str).length < 65536) →
      (encodeRecs recs).length < f →
      tlvRecordsF f (encodeRecs recs) = some recs := by
  intro recs
  induction recs with
  | nil =>
    intro f _ hf
    match f, hf with
    | f + 1, _ => rfl
  | cons tv rs ih =>
    intro f hv hf
    obtain ⟨t, v⟩ := tv
    match f, hf with
    | f + 1, hf =>
      rw [encodeRecs_cons] at hf ⊢
      have hvlen : v.length < 65536 := hv (t, v) (by simp)
      have hne : toTlvRecord t v ++ encodeRecs rs ≠ [] := by
        simp [toTlvRecord]
      match hrep : toTlvRecord t v ++ encodeRecs rs, hne with
      | c :: cs, _ =>
        show tlvRecordsF (f + 1) (c :: cs) = _
        unfold tlvRecordsF
        rw [← hrep, splitSingleTlvRecord_append t v _ hvlen]
        simp only
        rw [ih f (fun tv2 htv2 => hv tv2 (by simp [htv2]))
          (by simp only [List.length_append, toTlvRecord_length] at hf; omega)]
        rfl

/-- Decreasing type codes anywhere in a well-formed TLV stream make the
parse loop fail. -/
theorem parseLoopF_not_ordered (P : Prims) :
    ∀ (f : Nat) (s : Str) (recs : List (Nat × Str)) (last : Nat) (pc : ParsedMessage),
      tlvRecordsF f s = some recs →
      typesOrdered last (recs.map Prod.fst) = false →
      parseLoopF P f s last pc = none := by
  intro f
  induction f with
  | zero => intro s recs last pc h; simp [tlvRecordsF] at h
  | succ f ih =>
    intro s recs last pc hrec hord
    cases s with
    | nil =>
      simp only [tlvRecordsF] at hrec
      injection hrec with hrec
      subst hrec
      simp [typesOrdered] at hord
    | cons c cs =>
      show parseLoopF P (f + 1) (c :: cs) last pc = none
      unfold parseLoopF
      unfold tlvRecordsF at hrec
      cases hsp : splitSingleTlvRecord (c :: cs) with
      | none => rfl
      | some p =>
        obtain ⟨⟨t, v⟩, rest⟩ := p
        rw [hsp] at hrec
        simp only [Option.map_eq_some'] at hrec
        obtain ⟨rs, hrs, hcons⟩ := hrec
        subst hcons
        simp only [List.map_cons, typesOrdered] at hord
        simp only
        by_cases hlt : t < last
        · rw [if_pos hlt]
        · rw [if_neg hlt]
          rw [if_neg hlt] at hord
          exact ih rest rs t _ hrs hord

theorem applyRecord_recipients_ne (P : Prims) (t : Nat) (v rest : Str)
    (pc : ParsedMessage) (h : t ≠ TLV.RECIPIENT) :
    (applyRecord P t v rest pc).recipients = pc.recipients := by
  unfold applyRecord
  split_ifs <;> simp_all

theorem applyRecord_keys_ne (P : Prims) (t : Nat) (v rest : Str)
    (pc : ParsedMessage) (h : t ≠ TLV.KEYS) :
    (applyRecord P t v rest pc).keys = pc.keys := by
  unfold applyRecord
  split_ifs <;> simp_all

theorem applyRecord_recipient (P : Prims) (v rest : Str) (pc : ParsedMessage) :
    (applyRecord P TLV.RECIPIENT v rest pc).recipients
      = pc.recipients ++ [P.b64enc v] := by
  simp [applyRecord, TLV.RECIPIENT, TLV.SIGNATURE, TLV.MESSAGE_TYPE, TLV.NONCE]

theorem applyRecord_key (P : Prims) (v rest : Str) (pc : ParsedMessage) :
    (applyRecord P TLV.KEYS v rest pc).keys = pc.keys ++ [v] := by
  simp [applyRecord, TLV.KEYS, TLV.SIGNATURE, TLV.MESSAGE_TYPE, TLV.NONCE,
    TLV.RECIPIENT]

/-- Non-decreasing type codes make the parse loop succeed, with the
recipient and key counts given by the numbers of RECIPIENT and KEYS
records. -/
theorem parseLoopF_ordered (P : Prims) :
    ∀ (f : Nat) (s : Str) (recs : List (Nat × Str)) (last : Nat) (pc : ParsedMessage),
      tlvRecordsF f s = some recs →
      typesOrdered last (recs.map Prod.fst) = true →
      ∃ pc2, parseLoopF P f s last pc = some pc2 ∧
        pc2.recipients.length
          = pc.recipients.length + (recs.map Prod.fst).count TLV.RECIPIENT ∧
        pc2.keys.length = pc.keys.length + (recs.map Prod.fst).count TLV.KEYS := by
  intro f
  induction f with
  | zero => intro s recs last pc h; simp [tlvRecordsF] at h
  | succ f ih =>
    intro s recs last pc hrec hord
    cases s with
    | nil =>
      simp only [tlvRecordsF] at hrec
      injection hrec with hrec
      subst hrec
      exact ⟨pc, rfl, by simp, by simp⟩
    | cons c cs =>
      unfold tlvRecordsF at hrec
      cases hsp : splitSingleTlvRecord (c :: cs) with
      | none => rw [hsp] at hrec; simp at hrec
      | some p =>
        obtain ⟨⟨t, v⟩, rest⟩ := p
        rw [hsp] at hrec
        simp only [Option.map_eq_some'] at hrec
        obtain ⟨rs, hrs, hcons⟩ := hrec
        subst hcons
        simp only [List.map_cons, typesOrdered] at hord
        by_cases hlt : t < last
        · rw [if_pos hlt] at hord; simp at hord
        · rw [if_neg hlt] at hord
          obtain ⟨pc2, hpc2, hrcount, hkcount⟩ :=
            ih rest rs t (applyRecord P t v rest pc) hrs hord
          refine ⟨pc2, ?_, ?_, ?_⟩
          · show parseLoopF P (f + 1) (c :: cs) last pc = some pc2
            unfold parseLoopF
            rw [hsp]
            simp only
            rw [if_neg hlt]
            exact hpc2
          · rw [hrcount]
            by_cases ht4 : t = TLV.RECIPIENT
            · subst ht4
              rw [applyRecord_recipient]
              simp [List.count_cons]
              omega
            · rw [applyRecord_recipients_ne P t v rest pc ht4]
              simp [List.count_cons, ht4]
          · rw [hkcount]
            by_cases ht5 : t = TLV.KEYS
            · subst ht5
              rw [applyRecord_key]
              simp [List.count_cons]
              omega
            · rw [applyRecord_keys_ne P t v rest pc ht5]
              simp [List.count_cons, ht5]

/-! ### Cache-update loop lemmas -/

/-- The cache loop only touches the sender's row of the store. -/
theorem cacheLoopGo_frame (sender : Str) (ids : List Str) :
    ∀ (ks : List Str) (i : Nat) (st : Store) (u : Str), u ≠ sender →
      alookup (cacheLoopGo sender ids ks i st).1 u = alookup st u := by
  intro ks
  induction ks with
  | nil => intro i st u hu; rfl
  | cons k ks ih =>
    intro i st u hu
    unfold cacheLoopGo
    simp only
    cases hl : alookup2 st sender (ids.getD i jsUndefinedStr) with
    | some prev =>
      simp only
      by_cases hc : prev ≠ [] ∧ prev ≠ k
      · rw [if_pos hc]
      · rw [if_neg hc]
        rw [ih (i + 1) _ u hu]
        exact alookup_insert2_other _ _ _ _ _ (fun he => hu he.symm)
    | none =>
      simp only
      rw [ih (i + 1) _ u hu]
      exact alookup_insert2_other _ _ _ _ _ (fun he => hu he.symm)

/-- The cache loop preserves every nonempty binding of the base store
`st0` for the sender: a binding is only ever rewritten with its own
value (the conflict check fires otherwise). -/
theorem cacheLoopGo_preserves (sender : Str) (ids : List Str) :
    ∀ (ks : List Str) (i : Nat) (st st0 : Store),
      (∀ k v, alookup2 st0 sender k = some v → v ≠ [] →
        alookup2 st sender k = some v) →
      ∀ k v, alookup2 st0 sender k = some v → v ≠ [] →
        alookup2 (cacheLoopGo sender ids ks i st).1 sender k = some v := by
  intro ks
  induction ks with
  | nil => intro i st st0 inv k v hk hv; exact inv k v hk hv
  | cons kk ks ih =>
    intro i st st0 inv k v hk hv
    unfold cacheLoopGo
    simp only
    cases hl : alookup2 st sender (ids.getD i jsUndefinedStr) with
    | some prev =>
      simp only
      by_cases hc : prev ≠ [] ∧ prev ≠ kk
      · rw [if_pos hc]
        exact inv k v hk hv
      · rw [if_neg hc]
        refine ih (i + 1) _ st0 ?_ k v hk hv
        intro k2 v2 hk2 hv2
        by_cases hkid : ids.getD i jsUndefinedStr = k2
        · subst hkid
          have hval := inv _ _ hk2 hv2
          rw [hl] at hval
          injection hval with hval
          subst hval
          push_neg at hc
          rw [alookup2_insert2_self]
          rw [hc hv2]
        · rw [alookup2_insert2_ne_key _ _ _ _ _ hkid]
          exact inv k2 v2 hk2 hv2
    | none =>
      simp only
      refine ih (i + 1) _ st0 ?_ k v hk hv
      intro k2 v2 hk2 hv2
      by_cases hkid : ids.getD i jsUndefinedStr = k2
      · subst hkid
        have hval := inv _ _ hk2 hv2
        rw [hl] at hval
        exact absurd hval (by simp)
      · rw [alookup2_insert2_ne_key _ _ _ _ _ hkid]
        exact inv k2 v2 hk2 hv2

/-- If the cache loop completes without a conflict, the first key was
either fresh or consistent with its cached value. -/
theorem cacheLoopGo_head_ok (sender : Str) (ids : List Str) (k : Str)
    (ks : List Str) (i : Nat) (st : Store)
    (hok : (cacheLoopGo sender ids (k :: ks) i st).2 = none)
    (prev : Str) (hl : alookup2 st sender (ids.getD i jsUndefinedStr) = some prev) :
    prev = [] ∨ prev = k := by
  unfold cacheLoopGo at hok
  simp only at hok
  rw [hl] at hok
  simp only at hok
  by_cases hc : prev ≠ [] ∧ prev ≠ k
  · rw [if_pos hc] at hok
    simp at hok
  · push_neg at hc
    by_cases hp : prev = []
    · exact Or.inl hp
    · exact Or.inr (hc hp)

/-- `decryptPayload` never touches the handler state. -/
theorem decryptPayload_handler (P : Prims) (pm : ParsedMessage)
    (senderKey sender : Str) (h : Handler) :
    (decryptPayload P pm senderKey sender h).2 = h := by
  unfold decryptPayload
  split
  · split <;> rfl
  · rfl

/-- Every run of `decryptFrom` returns the handler with only the
`participantKeys` store possibly changed, and only the sender's row of
the store touched. -/
theorem decryptFrom_handler_shape (P : Prims) (D : Dirs) (h : Handler)
    (message sender : Str) :
    ∃ st : Store, (decryptFrom P D h message sender).2
        = { h with participantKeys := st } ∧
      ∀ u, u ≠ sender → alookup st u = alookup h.participantKeys u := by
  unfold decryptFrom
  split
  · exact ⟨h.participantKeys, rfl, fun u _ => rfl⟩
  · rename_i pm hpm
    split
    · exact ⟨h.participantKeys, rfl, fun u _ => rfl⟩
    · split
      · exact ⟨h.participantKeys, rfl, fun u _ => rfl⟩
      · exact ⟨h.participantKeys, rfl, fun u _ => rfl⟩
      · split
        · exact ⟨h.participantKeys, rfl, fun u _ => rfl⟩
        · split
          · -- KEYS records present
            simp only
            split
            · exact ⟨h.participantKeys, rfl, fun u _ => rfl⟩
            · rename_i dk hdk
              split
              · -- conflict inside the cache loop
                refine ⟨(cacheLoopGo sender pm.keyIds dk 0
                    (ensureParticipant h.participantKeys sender)).1, rfl, ?_⟩
                intro u hu
                rw [cacheLoopGo_frame sender pm.keyIds dk 0 _ u hu]
                exact alookup_ensureParticipant_other _ _ _ (fun he => hu he.symm)
              · split
                · -- empty unwrapped key list: write of `undefined`
                  rename_i hsk
                  simp only [hsk]
                  refine ⟨erase2 (cacheLoopGo sender pm.keyIds dk 0
                      (ensureParticipant h.participantKeys sender)).1 sender
                      (pm.keyIds.getD 0 jsUndefinedStr), rfl, ?_⟩
                  intro u hu
                  rw [alookup_erase2_other _ _ _ _ (fun he => hu he.symm)]
                  rw [cacheLoopGo_frame sender pm.keyIds dk 0 _ u hu]
                  exact alookup_ensureParticipant_other _ _ _ (fun he => hu he.symm)
                · -- normal cache write then payload decryption
                  rename_i sk hsk
                  simp only [hsk]
                  rw [decryptPayload_handler]
                  refine ⟨insert2 (cacheLoopGo sender pm.keyIds dk 0
                      (ensureParticipant h.participantKeys sender)).1 sender
                      (pm.keyIds.getD 0 jsUndefinedStr) sk, rfl, ?_⟩
                  intro u hu
                  rw [alookup_insert2_other _ _ _ _ _ (fun he => hu he.symm)]
                  rw [cacheLoopGo_frame sender pm.keyIds dk 0 _ u hu]
                  exact alookup_ensureParticipant_other _ _ _ (fun he => hu he.symm)
          · -- no KEYS records: cache read only
            simp only
            split
            · split
              · exact ⟨h.participantKeys, rfl, fun u _ => rfl⟩
              · rw [decryptPayload_handler]
                exact ⟨h.participantKeys, rfl, fun u _ => rfl⟩
            · exact ⟨h.participantKeys, rfl, fun u _ => rfl⟩

/-- No run of `decryptFrom` rebinds an existing (participant, key ID)
binding to a different value, provided the sender's cached values are
nonempty strings (as every value the module itself stores is: 16-byte
keys).  Bindings of other participants are never touched at all. -/
theorem decryptFrom_no_rebind (P : Prims) (D : Dirs) (h : Handler)
    (message sender : Str)
    (hne : ∀ k v, alookup2 h.participantKeys sender k = some v → v ≠ []) :
    ∀ u k v v2, alookup2 h.participantKeys u k = some v →
      alookup2 (decryptFrom P D h message sender).2.participantKeys u k = some v2 →
      v2 = v := by
  intro u k v v2 hk hk2
  by_cases hu : u = sender
  · subst hu
    have hinv : ∀ k2 v3, alookup2 h.participantKeys u k2 = some v3 → v3 ≠ [] →
        alookup2 (ensureParticipant h.participantKeys u) u k2 = some v3 := by
      intro k2 v3 hk3 _
      rw [alookup2_ensureParticipant]
      exact hk3
    unfold decryptFrom at hk2
    split at hk2
    · rw [hk] at hk2; injection hk2 with hk2; exact hk2.symm
    · rename_i pm hpm
      split at hk2
      · rw [hk] at hk2; injection hk2 with hk2; exact hk2.symm
      · split at hk2
        · rw [hk] at hk2; injection hk2 with hk2; exact hk2.symm
        · rw [hk] at hk2; injection hk2 with hk2; exact hk2.symm
        · split at hk2
          · rw [hk] at hk2; injection hk2 with hk2; exact hk2.symm
          · split at hk2
            · -- KEYS records present
              simp only at hk2
              split at hk2
              · rw [hk] at hk2; injection hk2 with hk2; exact hk2.symm
              · rename_i dk hdk
                split at hk2
                · -- conflict: the partially updated loop store is returned
                  rename_i e hlp
                  simp only at hk2
                  have hpres := cacheLoopGo_preserves u pm.keyIds dk 0
                    (ensureParticipant h.participantKeys u) h.participantKeys
                    hinv k v hk (hne k v hk)
                  rw [hpres] at hk2
                  injection hk2 with hk2
                  exact hk2.symm
                · rename_i hlp
                  have hpres := cacheLoopGo_preserves u pm.keyIds dk 0
                    (ensureParticipant h.participantKeys u) h.participantKeys
                    hinv k v hk (hne k v hk)
                  split at hk2
                  · -- empty key list: the primary key ID is unbound
                    rename_i hsk
                    simp only [hsk] at hk2
                    by_cases hkid : k = pm.keyIds.getD 0 jsUndefinedStr
                    · subst hkid
                      rw [alookup2_erase2_self] at hk2
                      exact absurd hk2 (by simp)
                    · rw [alookup2_erase2_ne_key _ _ _ _
                        (fun he => hkid he.symm)] at hk2
                      rw [hpres] at hk2
                      injection hk2 with hk2
                      exact hk2.symm
                  · -- primary key rewritten with the unwrapped head key
                    rename_i sk hsk
                    simp only [hsk] at hk2
                    rw [decryptPayload_handler] at hk2
                    simp only at hk2
                    by_cases hkid : k = pm.keyIds.getD 0 jsUndefinedStr
                    · subst hkid
                      rw [alookup2_insert2_self] at hk2
                      injection hk2 with hk2
                      obtain ⟨tl, htl⟩ : ∃ tl, dk = sk :: tl := by
                        cases dk with
                        | nil => simp at hsk
                        | cons a tl =>
                          simp at hsk
                          exact ⟨tl, by rw [hsk]⟩
                      have hhead := cacheLoopGo_head_ok u pm.keyIds sk tl 0
                        (ensureParticipant h.participantKeys u)
                        (by rw [← htl]; exact hlp) v
                        (by rw [alookup2_ensureParticipant]; exact hk)
                      rcases hhead with hv0 | hv0
                      · exact absurd hv0 (hne _ _ hk)
                      · rw [← hk2]
                        exact hv0.symm
                    · rw [alookup2_insert2_ne_key _ _ _ _ _
                        (fun he => hkid he.symm)] at hk2
                      rw [hpres] at hk2
                      injection hk2 with hk2
                      exact hk2.symm
            · -- no KEYS records: no cache mutation
              simp only at hk2
              split at hk2
              · split at hk2
                · rw [hk] at hk2; injection hk2 with hk2; exact hk2.symm
                · rw [decryptPayload_handler] at hk2
                  rw [hk] at hk2; injection hk2 with hk2; exact hk2.symm
              · rw [hk] at hk2; injection hk2 with hk2; exact hk2.symm
  · obtain ⟨st, hst, hframe⟩ := decryptFrom_handler_shape P D h message sender
    rw [hst] at hk2
    have hrow : alookup2 st u k = alookup2 h.participantKeys u k := by
      unfold alookup2
      rw [hframe u hu]
    have hk3 : alookup2 st u k = some v2 := hk2
    rw [hrow, hk] at hk3
    injection hk3 with hk3
    exact hk3.symm

/-! ## Concrete fixtures for witnesses and counterexamples

Simple executable instantiations of the abstract primitives, satisfying
the inverse/correctness hypotheses the theorems assume. -/

/-! ## Claims -/

/-! ### Encrypt-path computation lemmas -/

theorem randBytes_length (r : Nat → Nat) (off n : Nat) :
    (randBytes r off n).length = n := by
  simp [randBytes]

/-- Running `encryptTo` on a handler holding a current (not yet
transported) sender key and no previous key: a keyed message is emitted
and `sentKeyId` is set. -/
theorem encryptTo_keyed_noprev (P : Prims) (D : Dirs) (today : Nat)
    (r : Nat → Nat) (h : Handler) (message destination kid sk cuD : Str)
    (hcount : h.keyEncryptionCount < h.rotateKeyEvery)
    (hkid : h.keyId = some kid)
    (hprev : h.previousKeyId = none)
    (hsent : h.sentKeyId ≠ h.keyId)
    (hsk : alookup2 h.participantKeys h.ownHandle kid = some sk)
    (hcuD : D.pubCu25519 destination = some cuD) (hcuDne : cuD ≠ [])
    (hencne : P.aesCbcEnc sk
        ((P.sha256 (P.scalarMult h.privCu25519 cuD)).take KEY_SIZE)
        ((P.sha256 (P.b64dec destination ++ randBytes r 0 NONCE_SIZE)).take
          IV_SIZE) ≠ []) :
    encryptTo P D today r h message destination
      = (.ok (keyedWireMsg P h.privEd25519 h.pubEd25519
            (randBytes r 0 NONCE_SIZE) (P.b64dec destination)
            (P.aesCbcEnc sk
              ((P.sha256 (P.scalarMult h.privCu25519 cuD)).take KEY_SIZE)
              ((P.sha256 (P.b64dec destination ++ randBytes r 0 NONCE_SIZE)).take
                IV_SIZE))
            kid
            (P.aesCtrEnc (P.utf8enc message) sk (randBytes r 0 NONCE_SIZE))),
         { h with sentKeyId := some kid,
                  keyEncryptionCount := h.keyEncryptionCount + 1 }) := by
  have hsent2 : h.sentKeyId ≠ some kid := hkid ▸ hsent
  unfold encryptTo
  simp only [if_neg (Nat.not_le.mpr hcount), hkid, hprev, jsKey]
  rw [hsk]
  simp only [if_neg hsent2, List.map, jsStrU]
  unfold _encryptKeysFor _computeSymmetricKey _symmetricEncryptMessage
  simp only [List.length_singleton]
  rw [if_neg (by omega)]
  rw [hcuD]
  simp only
  rw [if_neg hcuDne]
  simp only [List.foldl, List.nil_append]
  rw [if_neg hencne]
  simp only [_signMessage, keyedWireMsg, keyedWireContent]

/-- Parsing the full keyed wire message produced by `encryptTo`. -/
theorem parse_keyedWireMsg (P : Prims) (sig nonce rcpt enc kids ct : Str)
    (kidList : List Str)
    (hsig : sig.length < 65536) (hnonce : nonce.length < 65536)
    (hrcpt : rcpt.length < 65536) (henc : enc.length < 65536)
    (hkids : kids.length < 65536) (hct : ct.length < 65536)
    (hchunk : strChunks KEY_ID_SIZE kids = kidList) :
    _parseMessageContent P (PROTOCOL_VERSION :: (toTlvRecord TLV.SIGNATURE sig
        ++ keyedWireContent nonce rcpt enc kids ct)) = some
      { protocolVersion := some PROTOCOL_VERSION,
        signature := some sig,
        signedContent := keyedWireContent nonce rcpt enc kids ct,
        type := some GROUP_KEYED,
        nonce := some nonce,
        recipients := [P.b64enc rcpt], keys := [enc], keyIds := kidList,
        payload := some ct } := by
  have hrep : toTlvRecord TLV.SIGNATURE sig ++ keyedWireContent nonce rcpt enc kids ct
      = encodeRecs [(TLV.SIGNATURE, sig), (TLV.MESSAGE_TYPE, [GROUP_KEYED]),
          (TLV.NONCE, nonce), (TLV.RECIPIENT, rcpt), (TLV.KEYS, enc),
          (TLV.KEY_IDS, kids), (TLV.PAYLOAD, ct)] := by
    simp [keyedWireContent, encodeRecs, List.append_assoc]
  unfold _parseMessageContent
  simp only [List.tail_cons, hrep]
  rw [parseLoopF_encodeRecs P _ _ 0 _ ?hlen (by omega)]
  case hlen =>
    intro tv htv
    simp only [List.mem_cons] at htv
    rcases htv with h1 | h1 | h1 | h1 | h1 | h1 | h1 | h1
    · subst h1; simpa using hsig
    · subst h1; simp
    · subst h1; simpa using hnonce
    · subst h1; simpa using hrcpt
    · subst h1; simpa using henc
    · subst h1; simpa using hkids
    · subst h1; simpa using hct
    · simp at h1
  simp only [processRecs, applyRecord, TLV.SIGNATURE, TLV.MESSAGE_TYPE,
    TLV.NONCE, TLV.RECIPIENT, TLV.KEYS, TLV.KEY_IDS, TLV.PAYLOAD, hchunk,
    encodeRecs_cons, encodeRecs_nil]
  norm_num [keyedWireContent, List.append_assoc, KEY_ID_SIZE, hchunk]
  rfl

/-- Unwrapping a crafted key blob on the receiving side. -/
theorem decryptKeysFor_keyed (P : Prims) (D : Dirs) (h : Handler)
    (sender cuS n enc clr : Str)
    (hcuS : D.pubCu25519 sender = some cuS) (hcuNe : cuS ≠ [])
    (hcbc : P.aesCbcDec enc
        ((P.sha256 (P.scalarMult h.privCu25519 cuS)).take KEY_SIZE)
        ((P.sha256 (P.b64dec h.ownHandle ++ n)).take IV_SIZE) = clr)
    (hclen : clr.length % KEY_SIZE = 0) :
    _decryptKeysFor P D h.ownHandle h.privCu25519 enc n sender false
      = .ok (strChunks KEY_SIZE clr) := by
  unfold _decryptKeysFor _computeSymmetricKey
  rw [hcuS]
  simp only [Bool.false_eq_true, if_false]
  rw [if_neg hcuNe]
  simp only
  rw [hcbc]
  rw [if_pos hclen]

/-! ### C1: encrypt/decrypt round trip -/

/-- C1: round trip.  With valid key material — the parties hold each
other's public Curve25519/Ed25519 keys (via the directories, with the
Diffie–Hellman agreement and Ed25519 correctness stated for the abstract
primitives), and the sender's handler holds a current, not yet
transported sender key — `decryptFrom (encryptTo msg dest) sender`
evaluated by the party `dest` succeeds and returns the sender's handle,
the message type (GROUP_KEYED for this keyed message) and the original
plaintext. -/
theorem C1_roundtrip (P : Prims) (D : Dirs) (today : Nat) (r : Nat → Nat)
    (hS hR : Handler) (message destination kid sk cuS cuD edS : Str)
    (hcount : hS.keyEncryptionCount < hS.rotateKeyEvery)
    (hkid : hS.keyId = some kid) (hkid4 : kid.length = KEY_ID_SIZE)
    (hprev : hS.previousKeyId = none)
    (hsent : hS.sentKeyId ≠ hS.keyId)
    (hsk : alookup2 hS.participantKeys hS.ownHandle kid = some sk)
    (hsk16 : sk.length = KEY_SIZE)
    (hown : hR.ownHandle = destination)
    (hdiff : hS.ownHandle ≠ destination)
    (hfresh : alookup2 hR.participantKeys hS.ownHandle kid = none)
    (hcuD : D.pubCu25519 destination = some cuD) (hcuDne : cuD ≠ [])
    (hcuS : D.pubCu25519 hS.ownHandle = some cuS) (hcuSne : cuS ≠ [])
    (hedS : D.pubEd25519 hS.ownHandle = some edS)
    (hdh : P.scalarMult hS.privCu25519 cuD = P.scalarMult hR.privCu25519 cuS)
    (hcbcinv : ∀ m k i, P.aesCbcDec (P.aesCbcEnc m k i) k i = m)
    (hcbclen : ∀ m k i, (P.aesCbcEnc m k i).length = m.length)
    (hctrinv : ∀ m k nn, P.aesCtrDec (P.aesCtrEnc m k nn) k nn = m)
    (hutf : ∀ m, P.utf8dec (P.utf8enc m) = some m)
    (hsiglen : ∀ m k, (P.edSign m k).length < 65536)
    (hver : ∀ m,
      P.edVerify m (P.edSign m (hS.privEd25519 ++ hS.pubEd25519)) edS = true)
    (hctlen : (P.aesCtrEnc (P.utf8enc message) sk
        (randBytes r 0 NONCE_SIZE)).length < 65536)
    (hb64len : (P.b64dec destination).length < 65536) :
    ∃ w, (encryptTo P D today r hS message destination).1 = .ok w ∧
      (decryptFrom P D hR w hS.ownHandle).1
        = .ok { sender := hS.ownHandle, type := some GROUP_KEYED,
                payload := message } := by
  have hencne : P.aesCbcEnc sk
      ((P.sha256 (P.scalarMult hS.privCu25519 cuD)).take KEY_SIZE)
      ((P.sha256 (P.b64dec destination ++ randBytes r 0 NONCE_SIZE)).take
        IV_SIZE) ≠ [] := by
    intro hemp
    have := hcbclen sk
      ((P.sha256 (P.scalarMult hS.privCu25519 cuD)).take KEY_SIZE)
      ((P.sha256 (P.b64dec destination ++ randBytes r 0 NONCE_SIZE)).take
        IV_SIZE)
    rw [hemp] at this
    simp [hsk16, KEY_SIZE] at this
  have henc := encryptTo_keyed_noprev P D today r hS message destination kid
    sk cuD hcount hkid hprev hsent hsk hcuD hcuDne hencne
  refine ⟨_, by rw [henc], ?_⟩
  have hso : hS.ownHandle ≠ hR.ownHandle := by rw [hown]; exact hdiff
  have hchunk : strChunks KEY_ID_SIZE kid = [kid] :=
    strChunks_exact KEY_ID_SIZE kid hkid4 (by simp [KEY_ID_SIZE])
  have hcbc2 : P.aesCbcDec
      (P.aesCbcEnc sk
        ((P.sha256 (P.scalarMult hS.privCu25519 cuD)).take KEY_SIZE)
        ((P.sha256 (P.b64dec destination ++ randBytes r 0 NONCE_SIZE)).take
          IV_SIZE))
      ((P.sha256 (P.scalarMult hR.privCu25519 cuS)).take KEY_SIZE)
      ((P.sha256 (P.b64dec hR.ownHandle ++ randBytes r 0 NONCE_SIZE)).take
        IV_SIZE) = sk := by
    rw [hown, ← hdh]
    exact hcbcinv sk _ _
  have hdk := decryptKeysFor_keyed P D hR hS.ownHandle cuS
    (randBytes r 0 NONCE_SIZE)
    (P.aesCbcEnc sk
      ((P.sha256 (P.scalarMult hS.privCu25519 cuD)).take KEY_SIZE)
      ((P.sha256 (P.b64dec destination ++ randBytes r 0 NONCE_SIZE)).take
        IV_SIZE))
    sk hcuS hcuSne hcbc2 (by rw [hsk16]; simp [KEY_SIZE])
  rw [strChunks_exact KEY_SIZE sk hsk16 (by simp [KEY_SIZE])] at hdk
  have hloop : cacheLoopGo hS.ownHandle [kid] [sk] 0
      (ensureParticipant hR.participantKeys hS.ownHandle)
      = (insert2 (ensureParticipant hR.participantKeys hS.ownHandle)
          hS.ownHandle kid sk, none) := by
    unfold cacheLoopGo
    simp only [List.getD_cons_zero]
    rw [alookup2_ensureParticipant, hfresh]
    simp only
    rfl
  have htake : (randBytes r 0 NONCE_SIZE).take NONCE_SIZE
      = randBytes r 0 NONCE_SIZE := by
    exact List.take_of_length_le (by rw [randBytes_length])
  unfold decryptFrom keyedWireMsg
  rw [parse_keyedWireMsg P _ _ _ _ _ _ [kid] (hsiglen _ _)
    (by rw [randBytes_length]; decide)
    hb64len
    (by rw [hcbclen, hsk16]; decide)
    (by rw [hkid4]; decide)
    hctlen hchunk]
  simp only
  rw [if_neg (by simp)]
  rw [hedS]
  simp only
  rw [if_neg (by simp [_verifyMessage, hver])]
  rw [if_pos (by simp)]
  simp only [List.getD_cons_zero, jsStrU, if_neg hso, decide_eq_false hso,
    Bool.false_eq_true, if_false]
  rw [hdk]
  simp only [List.head?]
  rw [hloop]
  simp only
  unfold decryptPayload _symmetricDecryptMessage
  simp only
  rw [htake, hctrinv, hutf]

theorem tPrims_ctr_inv :
    ∀ m k nn, tPrims.aesCtrDec (tPrims.aesCtrEnc m k nn) k nn = m := by
  intro m k nn
  show List.map (fun x => x - 1) (List.map (fun x => x + 1) m) = m
  rw [List.map_map]
  have hid : ((fun x => x - 1) ∘ fun x => x + 1 : Nat → Nat) = id := by
    funext x
    simp
  rw [hid, List.map_id]

theorem tPrims_siglen : ∀ m k : Str, (tPrims.edSign m k).length < 65536 := by
  intro m k
  show ([9, 9] : Str).length < 65536
  decide

/-- Witness for C1 at concrete inputs: `tSender` encrypts "hi" to
`hndB`, and `tReceiver` (party `hndB`) decrypts it back. -/
theorem C1_roundtrip_witness :
    ∃ w, (encryptTo tPrims tDirs 500 (fun i => i) tSender [104, 105] hndB).1
        = .ok w ∧
      (decryptFrom tPrims tDirs tReceiver w tSender.ownHandle).1
        = .ok { sender := tSender.ownHandle, type := some GROUP_KEYED,
                payload := [104, 105] } := by
  exact C1_roundtrip tPrims tDirs 500 (fun i => i) tSender tReceiver
    [104, 105] hndB (_encodeKeyId 100 0) (List.replicate 16 55) [21] [21] [22]
    (by decide) rfl (by decide) rfl (by decide) rfl (by decide)
    rfl (by decide) rfl
    rfl (by decide) rfl (by decide) rfl
    rfl (fun m k i => rfl) (fun m k i => rfl) tPrims_ctr_inv (fun m => rfl)
    tPrims_siglen (fun m => rfl) (by decide) (by decide)

/-! ### C10: decryptFrom frame condition -/

/-- C10: `decryptFrom` never modifies the handler's own sending state:
after any call, successful or failed, `ownHandle`, the private/public key
fields, `keyId`, `previousKeyId`, `sentKeyId` and the per-key encryption
counter are unchanged, and the only store rows it may mutate are the
message sender's. -/
theorem C10_decryptFrom_frame (P : Prims) (D : Dirs) (h : Handler)
    (message sender : Str) :
    (decryptFrom P D h message sender).2.ownHandle = h.ownHandle ∧
    (decryptFrom P D h message sender).2.privCu25519 = h.privCu25519 ∧
    (decryptFrom P D h message sender).2.privEd25519 = h.privEd25519 ∧
    (decryptFrom P D h message sender).2.pubEd25519 = h.pubEd25519 ∧
    (decryptFrom P D h message sender).2.keyId = h.keyId ∧
    (decryptFrom P D h message sender).2.previousKeyId = h.previousKeyId ∧
    (decryptFrom P D h message sender).2.sentKeyId = h.sentKeyId ∧
    (decryptFrom P D h message sender).2.keyEncryptionCount
      = h.keyEncryptionCount ∧
    (decryptFrom P D h message sender).2.rotateKeyEvery = h.rotateKeyEvery ∧
    ∀ u, u ≠ sender →
      alookup (decryptFrom P D h message sender).2.participantKeys u
        = alookup h.participantKeys u := by
  obtain ⟨st, hst, hframe⟩ := decryptFrom_handler_shape P D h message sender
  rw [hst]
  exact ⟨rfl, rfl, rfl, rfl, rfl, rfl, rfl, rfl, rfl, hframe⟩

/-- Witness for C10 at concrete inputs (decrypting `msgC7` from sender
`hndA`, then inspecting state and the unrelated store row `hndB`). -/
theorem C10_decryptFrom_frame_witness :
    (decryptFrom tPrims tDirs tReceiver msgC7 hndA).2.keyId = tReceiver.keyId ∧
    (decryptFrom tPrims tDirs tReceiver msgC7 hndA).2.sentKeyId
      = tReceiver.sentKeyId ∧
    alookup (decryptFrom tPrims tDirs tReceiver msgC7 hndA).2.participantKeys hndB
      = alookup tReceiver.participantKeys hndB := by
  refine ⟨(C10_decryptFrom_frame tPrims tDirs tReceiver msgC7 hndA).2.2.2.2.1,
    (C10_decryptFrom_frame tPrims tDirs tReceiver msgC7 hndA).2.2.2.2.2.2.1, ?_⟩
  exact (C10_decryptFrom_frame tPrims tDirs tReceiver msgC7
    hndA).2.2.2.2.2.2.2.2.2 hndB (by decide)

/-! ### C4: key non-rebinding -/

/-- Parsing the minimal keyed message. -/
theorem parse_keyedMsg (P : Prims) (sig n enc kid : Str) (kidList : List Str)
    (hsig : sig.length < 65536) (hn : n.length < 65536)
    (henc : enc.length < 65536) (hkid : kid.length < 65536)
    (hchunk : strChunks KEY_ID_SIZE kid = kidList) :
    _parseMessageContent P (keyedMsg sig n enc kid) = some
      { protocolVersion := some PROTOCOL_VERSION,
        signature := some sig,
        signedContent := keyedContent n enc kid,
        type := some GROUP_KEYED,
        nonce := some n,
        recipients := [], keys := [enc], keyIds := kidList, payload := none } := by
  have hrep : toTlvRecord TLV.SIGNATURE sig ++ keyedContent n enc kid
      = encodeRecs [(TLV.SIGNATURE, sig), (TLV.MESSAGE_TYPE, [GROUP_KEYED]),
          (TLV.NONCE, n), (TLV.KEYS, enc), (TLV.KEY_IDS, kid)] := by
    simp [keyedContent, encodeRecs, List.append_assoc]
  unfold _parseMessageContent keyedMsg
  simp only [List.tail_cons, hrep]
  rw [parseLoopF_encodeRecs P _ _ 0 _ ?hlen (by omega)]
  case hlen =>
    intro tv htv
    simp only [List.mem_cons] at htv
    rcases htv with h1 | h1 | h1 | h1 | h1 | h1
    · subst h1; simpa using hsig
    · subst h1; simp
    · subst h1; simpa using hn
    · subst h1; simpa using henc
    · subst h1; simpa using hkid
    · simp at h1
  simp only [processRecs, applyRecord, TLV.SIGNATURE, TLV.MESSAGE_TYPE,
    TLV.NONCE, TLV.RECIPIENT, TLV.KEYS, TLV.KEY_IDS, TLV.PAYLOAD, hchunk,
    encodeRecs_cons, encodeRecs_nil]
  norm_num [keyedContent, List.append_assoc, keyedMsg, KEY_ID_SIZE, hchunk]
  rfl

/-- C4: once a (participant, KeyId) pair is bound in the store (to a
nonempty value, as every value the module stores is), no `decryptFrom`
call rebinds it to a different value; and a keyed message asserting a
*different* sender-key value for an already-cached (sender, KeyId) makes
`decryptFrom` fail at the conflict check (`KeyConflict`). -/
theorem C4_key_nonrebinding (P : Prims) (D : Dirs) (h : Handler) (sender : Str)
    (hne : ∀ k v, alookup2 h.participantKeys sender k = some v → v ≠ []) :
    (∀ message u k v v2, alookup2 h.participantKeys u k = some v →
        alookup2 (decryptFrom P D h message sender).2.participantKeys u k
          = some v2 →
        v2 = v) ∧
    (∀ sig n enc kid kNew vOld edS cuS : Str,
        D.pubEd25519 sender = some edS →
        D.pubCu25519 sender = some cuS → cuS ≠ [] →
        sender ≠ h.ownHandle →
        P.edVerify (keyedContent n enc kid) sig edS = true →
        P.aesCbcDec enc
            ((P.sha256 (P.scalarMult h.privCu25519 cuS)).take KEY_SIZE)
            ((P.sha256 (P.b64dec h.ownHandle ++ n)).take IV_SIZE) = kNew →
        kNew.length = KEY_SIZE → kid.length = 4 →
        sig.length < 65536 → n.length < 65536 → enc.length < 65536 →
        alookup2 h.participantKeys sender kid = some vOld →
        vOld ≠ kNew →
        (decryptFrom P D h (keyedMsg sig n enc kid) sender).1
          = .error .keyConflict) := by
  constructor
  · intro message u k v v2 hk hk2
    exact decryptFrom_no_rebind P D h message sender hne u k v v2 hk hk2
  · intro sig n enc kid kNew vOld edS cuS hedS hcuS hcuNe hso hver hcbc hklen
      hkid hsig hn henc hcache hvne
    have hdk := decryptKeysFor_keyed P D h sender cuS n enc kNew hcuS hcuNe
      hcbc (by rw [hklen]; simp [KEY_SIZE])
    rw [strChunks_exact KEY_SIZE kNew hklen (by simp [KEY_SIZE])] at hdk
    unfold decryptFrom
    rw [parse_keyedMsg P sig n enc kid [kid] hsig hn henc (by omega)
      (strChunks_exact KEY_ID_SIZE kid (by simpa [KEY_ID_SIZE] using hkid)
        (by simp [KEY_ID_SIZE]))]
    simp only
    rw [if_neg (by simp)]
    rw [hedS]
    simp only
    rw [if_neg (by simp [_verifyMessage, hver])]
    rw [if_pos (by simp)]
    simp only [List.getD_cons_zero, jsStrU, if_neg hso, decide_eq_false hso,
      Bool.false_eq_true, if_false]
    rw [hdk]
    simp only
    unfold cacheLoopGo
    simp only [List.getD_cons_zero]
    rw [alookup2_ensureParticipant, hcache]
    simp only
    rw [if_pos ⟨hne kid vOld hcache, hvne⟩]

theorem tCachedReceiver_hne :
    ∀ k v, alookup2 tCachedReceiver.participantKeys hndA k = some v → v ≠ [] := by
  intro k v hkv
  have hstep : alookup2 tCachedReceiver.participantKeys hndA k
      = if kid0 = k then some vOld16 else none := rfl
  rw [hstep] at hkv
  by_cases hk : kid0 = k
  · rw [if_pos hk] at hkv
    injection hkv with hkv
    subst hkv
    decide
  · rw [if_neg hk] at hkv
    exact absurd hkv (by simp)

/-- Witness for C4: decrypting a keyed message asserting `kNew16` for the
already-cached `(hndA, kid0) ↦ vOld16` fails with the key conflict. -/
theorem C4_key_nonrebinding_witness :
    (decryptFrom tPrims tDirs tCachedReceiver
        (keyedMsg [9, 9] nonce12 kNew16 kid0) hndA).1
      = .error .keyConflict := by
  exact (C4_key_nonrebinding tPrims tDirs tCachedReceiver hndA
      tCachedReceiver_hne).2
    [9, 9] nonce12 kNew16 kid0 kNew16 vOld16 [22] [21]
    rfl rfl (by decide) (by decide) rfl rfl (by decide) (by decide)
    (by decide) (by decide) (by decide) (by decide) (by decide)

/-! ### C5: no cache write after a fallible check -/

/-- C5 counterexample: this `decryptFrom` call fails with the key
conflict (for `idB`) and yet *does* add the new binding `(hndA, idA) ↦
k1c` to the store — the write for the first key happened before the
failing check for the second, so a failing call is not write-free. -/
theorem C5_counterexample :
    (decryptFrom tPrims tDirs hC5 msgC5 hndA).1 = .error .keyConflict ∧
    alookup2 hC5.participantKeys hndA idA = none ∧
    alookup2 (decryptFrom tPrims tDirs hC5 msgC5 hndA).2.participantKeys
        hndA idA = some k1c := by
  exact ⟨rfl, rfl, rfl⟩

theorem hC5_hne :
    ∀ k v, alookup2 hC5.participantKeys hndA k = some v → v ≠ [] := by
  intro k v hkv
  have hstep : alookup2 hC5.participantKeys hndA k
      = if idB = k then some vOld16 else none := rfl
  rw [hstep] at hkv
  by_cases hk : idB = k
  · rw [if_pos hk] at hkv
    injection hkv with hkv
    subst hkv
    decide
  · rw [if_neg hk] at hkv
    exact absurd hkv (by simp)

/-- C5 amended: each unwrapped key's conflict check precedes that key's
own cache write, so a `decryptFrom` call that fails with `KeyConflict`
retains the (additive) writes made for the keys processed before the
conflicting one, while the conflicting binding itself — and every other
existing binding — keeps its old value. -/
theorem C5_checks_interleaved (P : Prims) (D : Dirs) (h : Handler)
    (sender : Str)
    (hne : ∀ k v, alookup2 h.participantKeys sender k = some v → v ≠ []) :
    ∀ sig n enc ida idb k1 k2 vOld edS cuS : Str,
      D.pubEd25519 sender = some edS →
      D.pubCu25519 sender = some cuS → cuS ≠ [] →
      sender ≠ h.ownHandle →
      P.edVerify (keyedContent n enc (ida ++ idb)) sig edS = true →
      P.aesCbcDec enc
          ((P.sha256 (P.scalarMult h.privCu25519 cuS)).take KEY_SIZE)
          ((P.sha256 (P.b64dec h.ownHandle ++ n)).take IV_SIZE) = k1 ++ k2 →
      k1.length = KEY_SIZE → k2.length = KEY_SIZE →
      ida.length = KEY_ID_SIZE → idb.length = KEY_ID_SIZE → ida ≠ idb →
      sig.length < 65536 → n.length < 65536 → enc.length < 65536 →
      alookup2 h.participantKeys sender ida = none →
      alookup2 h.participantKeys sender idb = some vOld →
      vOld ≠ k2 →
      (decryptFrom P D h (keyedMsg sig n enc (ida ++ idb)) sender).1
          = .error .keyConflict ∧
      alookup2 (decryptFrom P D h (keyedMsg sig n enc (ida ++ idb))
          sender).2.participantKeys sender ida = some k1 ∧
      alookup2 (decryptFrom P D h (keyedMsg sig n enc (ida ++ idb))
          sender).2.participantKeys sender idb = some vOld := by
  intro sig n enc ida idb k1 k2 vOld edS cuS hedS hcuS hcuNe hso hver hcbc
    hk1 hk2 hia hib hAB hsig hn henc hfreshA hcacheB hvne
  have hchunkIds : strChunks KEY_ID_SIZE (ida ++ idb) = [ida, idb] := by
    rw [strChunks_append KEY_ID_SIZE ida idb hia (by simp [KEY_ID_SIZE])]
    rw [strChunks_exact KEY_ID_SIZE idb hib (by simp [KEY_ID_SIZE])]
  have hchunkKeys : strChunks KEY_SIZE (k1 ++ k2) = [k1, k2] := by
    rw [strChunks_append KEY_SIZE k1 k2 hk1 (by simp [KEY_SIZE])]
    rw [strChunks_exact KEY_SIZE k2 hk2 (by simp [KEY_SIZE])]
  have hdk := decryptKeysFor_keyed P D h sender cuS n enc (k1 ++ k2) hcuS
    hcuNe hcbc (by simp [hk1, hk2, KEY_SIZE])
  rw [hchunkKeys] at hdk
  have h1 : alookup2 (ensureParticipant h.participantKeys sender) sender ida
      = none := by
    rw [alookup2_ensureParticipant]; exact hfreshA
  have h2 : alookup2 (insert2 (ensureParticipant h.participantKeys sender)
      sender ida k1) sender idb = some vOld := by
    rw [alookup2_insert2_ne_key _ _ _ _ _ hAB, alookup2_ensureParticipant]
    exact hcacheB
  have hloop : cacheLoopGo sender [ida, idb] [k1, k2] 0
      (ensureParticipant h.participantKeys sender)
      = (insert2 (ensureParticipant h.participantKeys sender) sender ida k1,
         some .keyConflict) := by
    unfold cacheLoopGo
    simp only [List.getD_cons_zero]
    rw [h1]
    simp only
    unfold cacheLoopGo
    simp only [List.getD_cons_succ, List.getD_cons_zero]
    rw [h2]
    simp only
    rw [if_pos ⟨hne idb vOld hcacheB, hvne⟩]
  have hrun : decryptFrom P D h (keyedMsg sig n enc (ida ++ idb)) sender
      = (.error .keyConflict,
         { h with participantKeys := (insert2
             (ensureParticipant h.participantKeys sender) sender ida k1) }) := by
    unfold decryptFrom
    rw [parse_keyedMsg P sig n enc (ida ++ idb) [ida, idb] hsig hn henc
      (by simp [hia, hib, KEY_ID_SIZE]) hchunkIds]
    simp only
    rw [if_neg (by simp)]
    rw [hedS]
    simp only
    rw [if_neg (by simp [_verifyMessage, hver])]
    rw [if_pos (by simp)]
    simp only [List.getD_cons_zero, jsStrU, if_neg hso, decide_eq_false hso,
      Bool.false_eq_true, if_false]
    rw [hdk]
    simp only
    rw [hloop]
  refine ⟨by rw [hrun], ?_, ?_⟩
  · rw [hrun]
    exact alookup2_insert2_self _ _ _ _
  · rw [hrun]
    show alookup2 (insert2 (ensureParticipant h.participantKeys sender) sender
      ida k1) sender idb = some vOld
    exact h2

/-- Witness for C5 (amended), at the concrete two-key conflict inputs. -/
theorem C5_checks_interleaved_witness :
    (decryptFrom tPrims tDirs hC5 msgC5 hndA).1 = .error .keyConflict ∧
    alookup2 (decryptFrom tPrims tDirs hC5 msgC5 hndA).2.participantKeys
        hndA idA = some k1c ∧
    alookup2 (decryptFrom tPrims tDirs hC5 msgC5 hndA).2.participantKeys
        hndA idB = some vOld16 := by
  exact C5_checks_interleaved tPrims tDirs hC5 hndA hC5_hne
    [9, 9] nonce12 (k1c ++ k2c) idA idB k1c k2c vOld16 [22] [21]
    rfl rfl (by decide) (by decide) rfl rfl (by decide) (by decide)
    (by decide) (by decide) (by decide) (by decide) (by decide) (by decide)
    (by decide) (by decide) (by decide)

/-! ### C6: failure reporting -/

/-- C6 counterexample: two wire messages failing for different causes —
an unsupported protocol version and a TLV ordering violation — produce
the *same* caller-visible return value (`false` in the source, `none`
here): the return value of `decryptFrom` does not discriminate causes. -/
theorem C6_counterexample :
    decryptFromJS tPrims tDirs tReceiver [1] hndA
        = decryptFromJS tPrims tDirs tReceiver msgC7 hndA ∧
    (decryptFrom tPrims tDirs tReceiver [1] hndA).1
        = .error .unsupportedVersion ∧
    (decryptFrom tPrims tDirs tReceiver msgC7 hndA).1
        = .error .malformedMessage := by
  exact ⟨rfl, rfl, rfl⟩

/-- C6 amended: every failure of `decryptFrom` — whatever internal check
rejected the message — is reported to the caller as the single value
`false` (`none` here); the cause is logged but not returned, so calling
code cannot discriminate causes from the return value. -/
theorem C6_failures_collapse (P : Prims) (D : Dirs) (h : Handler)
    (message sender : Str) (e : SvError)
    (he : (decryptFrom P D h message sender).1 = .error e) :
    decryptFromJS P D h message sender = none := by
  unfold decryptFromJS
  rw [he]
  rfl

/-- Witness for C6 (amended) at a concrete failing message. -/
theorem C6_failures_collapse_witness :
    decryptFromJS tPrims tDirs tReceiver [1] hndA = none := by
  exact C6_failures_collapse tPrims tDirs tReceiver [1] hndA
    .unsupportedVersion rfl

/-! ### C9: key-ID derivation -/

/-- A lemma characterising the key ID produced by `_updateSenderKey`. -/
theorem updateSenderKey_keyId (today d c : Nat) (r : Nat → Nat) (h : Handler)
    (hd : d < 65536) (hc : c < 65536) :
    ((h.keyId = none →
        (_updateSenderKey today r h).keyId = some (_encodeKeyId today 0)) ∧
     (h.keyId = some (_encodeKeyId d c) →
        (_updateSenderKey today r h).keyId
          = some (if today ≠ d then _encodeKeyId today 0
                  else _encodeKeyId d ((c + 1) % 65536)))) := by
  constructor
  · intro hk
    simp [_updateSenderKey, hk]
  · intro hk
    have hne := encodeKeyId_ne_nil d c
    have hsplit := splitKeyId_encodeKeyId d c hd hc
    simp only [_updateSenderKey, hk, hne, if_neg, hsplit]
    by_cases ht : today ≠ d
    · simp [ht, hne]
    · simp [ht, hne]

/-- C9: New-KeyId derivation is a pure function of the current day and
the previous KeyId: with no previous key the new KeyId is
`(currentDayEpoch(), 0)`; if the day has advanced it is `(newDay, 0)`;
otherwise `(sameDay, (previousCounter + 1) mod 65536)`.  Two derivations
on the same day produce counters `n` then `n + 1` (mod 65536, shown with
independent random sources, so the result does not depend on them), and a
day boundary resets the counter to `0`. -/
theorem C9_nextKeyId_derivation (today d c : Nat) (r r2 : Nat → Nat)
    (h : Handler) (ht : today < 65536) (hd : d < 65536) (hc : c < 65536) :
    (h.keyId = none →
       (_updateSenderKey today r h).keyId = some (_encodeKeyId today 0) ∧
       (_splitKeyId (_encodeKeyId today 0)).2 = 0) ∧
    (h.keyId = some (_encodeKeyId d c) → today ≠ d →
       (_updateSenderKey today r h).keyId = some (_encodeKeyId today 0) ∧
       (_splitKeyId (_encodeKeyId today 0)).2 = 0) ∧
    (h.keyId = some (_encodeKeyId d c) → today = d →
       (_updateSenderKey today r h).keyId
         = some (_encodeKeyId d ((c + 1) % 65536)) ∧
       (_splitKeyId (_encodeKeyId d ((c + 1) % 65536))).2 = (c + 1) % 65536 ∧
       (_updateSenderKey today r2 (_updateSenderKey today r h)).keyId
         = some (_encodeKeyId d ((c + 2) % 65536))) := by
  have hz := splitKeyId_encodeKeyId today 0 ht (by omega)
  refine ⟨?_, ?_, ?_⟩
  · intro hk
    exact ⟨(updateSenderKey_keyId today d c r h hd hc).1 hk, by rw [hz]⟩
  · intro hk hday
    have := (updateSenderKey_keyId today d c r h hd hc).2 hk
    rw [if_pos hday] at this
    exact ⟨this, by rw [hz]⟩
  · intro hk hday
    have h1 := (updateSenderKey_keyId today d c r h hd hc).2 hk
    rw [if_neg (by omega)] at h1
    have hc1 : (c + 1) % 65536 < 65536 := Nat.mod_lt _ (by omega)
    have hs1 := splitKeyId_encodeKeyId d ((c + 1) % 65536) hd hc1
    refine ⟨h1, by rw [hs1], ?_⟩
    have h2 := (updateSenderKey_keyId today d ((c + 1) % 65536) r2
      (_updateSenderKey today r h) hd hc1).2 h1
    rw [if_neg (by omega)] at h2
    rw [h2]
    have : ((c + 1) % 65536 + 1) % 65536 = (c + 2) % 65536 := by omega
    rw [this]

/-- Witness for C9 at concrete inputs: day 200, previous counter 7. -/
theorem C9_nextKeyId_derivation_witness :
    (_updateSenderKey 200 (fun _ => 0)
        { tSender with keyId := some (_encodeKeyId 200 7) }).keyId
      = some (_encodeKeyId 200 ((7 + 1) % 65536)) ∧
    (_updateSenderKey 201 (fun _ => 0)
        { tSender with keyId := some (_encodeKeyId 200 7) }).keyId
      = some (_encodeKeyId 201 0) := by
  constructor
  · exact ((C9_nextKeyId_derivation 200 200 7 (fun _ => 0) (fun _ => 0)
      { tSender with keyId := some (_encodeKeyId 200 7) }
      (by decide) (by decide) (by decide)).2.2 rfl rfl).1
  · exact ((C9_nextKeyId_derivation 201 200 7 (fun _ => 0) (fun _ => 0)
      { tSender with keyId := some (_encodeKeyId 200 7) }
      (by decide) (by decide) (by decide)).2.1 rfl (by decide)).1

/-! ### C3: key rotation -/

/-- `_updateSenderKey` on a handler with a current key ID: new key ID,
fresh stored key, previous key ID retained, counter reset — and
`_sentKeyId` untouched (the record update does not mention it). -/
theorem updateSenderKey_shape (today : Nat) (r : Nat → Nat) (h : Handler)
    (kid : Str) (hkid : h.keyId = some kid) (hne : kid ≠ []) :
    _updateSenderKey today r h
      = { h with keyId := some (nextKeyId today kid),
                 previousKeyId := some kid,
                 participantKeys := (insert2 h.participantKeys h.ownHandle
                   (nextKeyId today kid) (randBytes r 0 SECRET_KEY_SIZE)),
                 keyEncryptionCount := 0 } := by
  by_cases hday : today ≠ (_splitKeyId kid).1
  · simp [_updateSenderKey, nextKeyId, hkid, hne, hday]
  · simp [_updateSenderKey, nextKeyId, hkid, hne, hday]

/-- The derived key ID always differs from the current one (same day:
counter changes mod 2^16; new day: the date stamp changes). -/
theorem nextKeyId_ne (today d c : Nat) (ht : today < 65536) (hd : d < 65536)
    (hc : c < 65536) :
    nextKeyId today (_encodeKeyId d c) ≠ _encodeKeyId d c := by
  unfold nextKeyId
  rw [splitKeyId_encodeKeyId d c hd hc]
  simp only
  by_cases hday : today ≠ d
  · rw [if_pos hday]
    intro he
    obtain ⟨h1, _⟩ := encodeKeyId_inj today 0 d c ht (by omega) hd hc he
    exact hday h1
  · rw [if_neg hday]
    intro he
    obtain ⟨_, h2⟩ := encodeKeyId_inj d ((c + 1) % 65536) d c hd
      (Nat.mod_lt _ (by omega)) hd hc he
    omega

/-- Running `encryptTo` on a handler whose counter has reached the
rotation threshold: the key is rotated first, and the keyed message wraps
both the fresh key and the previous one, with KEY_IDS `newKid ++ oldKid`. -/
theorem encryptTo_rotating (P : Prims) (D : Dirs) (today : Nat)
    (r : Nat → Nat) (h : Handler) (message destination k0 sk0 cuD : Str)
    (hrot : h.rotateKeyEvery ≤ h.keyEncryptionCount)
    (hkid : h.keyId = some k0) (hk0ne : k0 ≠ [])
    (hk1k0 : nextKeyId today k0 ≠ k0)
    (hsent : h.sentKeyId = some k0)
    (hsk0 : alookup2 h.participantKeys h.ownHandle k0 = some sk0)
    (hcuD : D.pubCu25519 destination = some cuD) (hcuDne : cuD ≠ [])
    (hencne : P.aesCbcEnc (randBytes r 0 SECRET_KEY_SIZE ++ sk0)
        ((P.sha256 (P.scalarMult h.privCu25519 cuD)).take KEY_SIZE)
        ((P.sha256 (P.b64dec destination
          ++ randBytes (fun i => r (i + SECRET_KEY_SIZE)) 0 NONCE_SIZE)).take
            IV_SIZE) ≠ []) :
    encryptTo P D today r h message destination
      = (.ok (keyedWireMsg P h.privEd25519 h.pubEd25519
            (randBytes (fun i => r (i + SECRET_KEY_SIZE)) 0 NONCE_SIZE)
            (P.b64dec destination)
            (P.aesCbcEnc (randBytes r 0 SECRET_KEY_SIZE ++ sk0)
              ((P.sha256 (P.scalarMult h.privCu25519 cuD)).take KEY_SIZE)
              ((P.sha256 (P.b64dec destination
                ++ randBytes (fun i => r (i + SECRET_KEY_SIZE)) 0
                    NONCE_SIZE)).take IV_SIZE))
            (nextKeyId today k0 ++ k0)
            (P.aesCtrEnc (P.utf8enc message) (randBytes r 0 SECRET_KEY_SIZE)
              (randBytes (fun i => r (i + SECRET_KEY_SIZE)) 0 NONCE_SIZE))),
         { h with keyId := some (nextKeyId today k0),
                  previousKeyId := some k0,
                  participantKeys := (insert2 h.participantKeys h.ownHandle
                    (nextKeyId today k0) (randBytes r 0 SECRET_KEY_SIZE)),
                  sentKeyId := some (nextKeyId today k0),
                  keyEncryptionCount := 1 }) := by
  have hshape := updateSenderKey_shape today r h k0 hkid hk0ne
  have hsent2 : h.sentKeyId ≠ some (nextKeyId today k0) := by
    rw [hsent]
    intro he
    injection he with he
    exact hk1k0 he.symm
  unfold encryptTo
  simp only [if_pos hrot, hshape, jsKey]
  rw [alookup2_insert2_self]
  simp only [if_neg hsent2]
  rw [if_neg hk0ne]
  rw [alookup2_insert2_ne_key _ _ _ _ _ hk1k0, hsk0]
  simp only [List.map, jsStrU, jsStrN]
  unfold _encryptKeysFor _computeSymmetricKey _symmetricEncryptMessage
  simp only [List.length_cons, List.length_singleton]
  rw [if_neg (by omega)]
  rw [hcuD]
  simp only
  rw [if_neg hcuDne]
  simp only [List.foldl, List.nil_append]
  rw [if_neg hencne]
  simp only [_signMessage, keyedWireMsg, keyedWireContent]

/-- C3 counterexample: the claim says rotation "clears sentKeyId".  It
does not: `_updateSenderKey` rotates the key ID (a new KeyId is
generated) but leaves `_sentKeyId` exactly as it was. -/
theorem C3_counterexample :
    (_updateSenderKey 100 (fun i => i) hC3).keyId ≠ hC3.keyId ∧
    (_updateSenderKey 100 (fun i => i) hC3).sentKeyId
      = some (_encodeKeyId 100 0) := by
  exact ⟨by decide, rfl⟩

/-- C3 amended: a call with the counter below the threshold never changes
the key ID; once exactly `rotateKeyEvery` successful calls have run (the
counter, incremented once per successful call, has reached the
threshold), the next `encryptTo` call rotates before encrypting: it
derives a new KeyId (different from the old one), stores a fresh random
16-byte sender key under (ownHandle, newKeyId), retains the old KeyId as
`previousKeyId`, resets the per-key counter (1 after the call's own
increment) — `sentKeyId` is *not* cleared by the rotation; the keyed send
then sets it to the new KeyId — and the message's KEY_IDS record carries
`newKeyId ++ oldKeyId`, which differs from the first KeyId used. -/
theorem C3_rotation (P : Prims) (D : Dirs) (today : Nat) (r : Nat → Nat)
    (h : Handler) (message destination : Str) (d0 c0 : Nat) (sk0 cuD : Str)
    (ht : today < 65536) (hd0 : d0 < 65536) (hc0 : c0 < 65536)
    (hrot : h.rotateKeyEvery ≤ h.keyEncryptionCount)
    (hkid : h.keyId = some (_encodeKeyId d0 c0))
    (hsent : h.sentKeyId = some (_encodeKeyId d0 c0))
    (hsk0 : alookup2 h.participantKeys h.ownHandle (_encodeKeyId d0 c0)
      = some sk0)
    (hcuD : D.pubCu25519 destination = some cuD) (hcuDne : cuD ≠ [])
    (hcbclen : ∀ m k i, (P.aesCbcEnc m k i).length = m.length) :
    (∀ h3 : Handler, h3.keyEncryptionCount < h3.rotateKeyEvery →
       (encryptTo P D today r h3 message destination).2.keyId = h3.keyId) ∧
    (encryptTo P D today r h message destination).2.keyId
        = some (nextKeyId today (_encodeKeyId d0 c0)) ∧
    nextKeyId today (_encodeKeyId d0 c0) ≠ _encodeKeyId d0 c0 ∧
    (encryptTo P D today r h message destination).2.previousKeyId
        = some (_encodeKeyId d0 c0) ∧
    (encryptTo P D today r h message destination).2.keyEncryptionCount = 1 ∧
    (encryptTo P D today r h message destination).2.sentKeyId
        = some (nextKeyId today (_encodeKeyId d0 c0)) ∧
    alookup2 (encryptTo P D today r h message destination).2.participantKeys
        h.ownHandle (nextKeyId today (_encodeKeyId d0 c0))
      = some (randBytes r 0 SECRET_KEY_SIZE) ∧
    (∃ pre post, (encryptTo P D today r h message destination).1
      = .ok (pre ++ toTlvRecord TLV.KEY_IDS
          (nextKeyId today (_encodeKeyId d0 c0) ++ _encodeKeyId d0 c0)
        ++ post)) := by
  have hk1k0 := nextKeyId_ne today d0 c0 ht hd0 hc0
  have hencne : P.aesCbcEnc (randBytes r 0 SECRET_KEY_SIZE ++ sk0)
      ((P.sha256 (P.scalarMult h.privCu25519 cuD)).take KEY_SIZE)
      ((P.sha256 (P.b64dec destination
        ++ randBytes (fun i => r (i + SECRET_KEY_SIZE)) 0 NONCE_SIZE)).take
          IV_SIZE) ≠ [] := by
    intro hemp
    have hl := hcbclen (randBytes r 0 SECRET_KEY_SIZE ++ sk0)
      ((P.sha256 (P.scalarMult h.privCu25519 cuD)).take KEY_SIZE)
      ((P.sha256 (P.b64dec destination
        ++ randBytes (fun i => r (i + SECRET_KEY_SIZE)) 0 NONCE_SIZE)).take
          IV_SIZE)
    rw [hemp] at hl
    simp [randBytes_length, SECRET_KEY_SIZE] at hl
    omega
  have hrun := encryptTo_rotating P D today r h message destination
    (_encodeKeyId d0 c0) sk0 cuD hrot hkid (encodeKeyId_ne_nil d0 c0) hk1k0
    hsent hsk0 hcuD hcuDne hencne
  refine ⟨?_, ?_, hk1k0, ?_, ?_, ?_, ?_, ?_⟩
  · intro h3 hlt
    unfold encryptTo
    simp only [if_neg (Nat.not_le.mpr hlt)]
    split
    · split <;> rfl
    · split
      · rfl
      · split
        · split <;> rfl
        · split <;> rfl
  · rw [hrun]
  · rw [hrun]
  · rw [hrun]
  · rw [hrun]
  · rw [hrun]
    exact alookup2_insert2_self _ _ _ _
  · refine ⟨PROTOCOL_VERSION :: (toTlvRecord TLV.SIGNATURE
        (P.edSign (keyedWireContent
            (randBytes (fun i => r (i + SECRET_KEY_SIZE)) 0 NONCE_SIZE)
            (P.b64dec destination)
            (P.aesCbcEnc (randBytes r 0 SECRET_KEY_SIZE ++ sk0)
              ((P.sha256 (P.scalarMult h.privCu25519 cuD)).take KEY_SIZE)
              ((P.sha256 (P.b64dec destination
                ++ randBytes (fun i => r (i + SECRET_KEY_SIZE)) 0
                    NONCE_SIZE)).take IV_SIZE))
            (nextKeyId today (_encodeKeyId d0 c0) ++ _encodeKeyId d0 c0)
            (P.aesCtrEnc (P.utf8enc message) (randBytes r 0 SECRET_KEY_SIZE)
              (randBytes (fun i => r (i + SECRET_KEY_SIZE)) 0 NONCE_SIZE)))
          (h.privEd25519 ++ h.pubEd25519))
      ++ (toTlvRecord TLV.MESSAGE_TYPE [GROUP_KEYED]
        ++ toTlvRecord TLV.NONCE
            (randBytes (fun i => r (i + SECRET_KEY_SIZE)) 0 NONCE_SIZE)
        ++ toTlvRecord TLV.RECIPIENT (P.b64dec destination)
        ++ toTlvRecord TLV.KEYS
            (P.aesCbcEnc (randBytes r 0 SECRET_KEY_SIZE ++ sk0)
              ((P.sha256 (P.scalarMult h.privCu25519 cuD)).take KEY_SIZE)
              ((P.sha256 (P.b64dec destination
                ++ randBytes (fun i => r (i + SECRET_KEY_SIZE)) 0
                    NONCE_SIZE)).take IV_SIZE)))),
      toTlvRecord TLV.PAYLOAD
        (P.aesCtrEnc (P.utf8enc message) (randBytes r 0 SECRET_KEY_SIZE)
          (randBytes (fun i => r (i + SECRET_KEY_SIZE)) 0 NONCE_SIZE)), ?_⟩
    rw [hrun]
    simp [keyedWireMsg, keyedWireContent, List.append_assoc]

/-- Witness for C3 (amended) at the concrete threshold-reached handler
`hC3`. -/
theorem C3_rotation_witness :
    (encryptTo tPrims tDirs 100 (fun i => i) hC3 [104, 105] hndB).2.keyId
        = some (nextKeyId 100 (_encodeKeyId 100 0)) ∧
    (encryptTo tPrims tDirs 100 (fun i => i) hC3 [104, 105] hndB).2.sentKeyId
        = some (nextKeyId 100 (_encodeKeyId 100 0)) ∧
    nextKeyId 100 (_encodeKeyId 100 0) ≠ _encodeKeyId 100 0 := by
  refine ⟨?_, ?_, ?_⟩
  · exact (C3_rotation tPrims tDirs 100 (fun i => i) hC3 [104, 105] hndB
      100 0 (List.replicate 16 55) [21] (by decide) (by decide) (by decide)
      (by decide) rfl rfl rfl rfl (by decide) (fun m k i => rfl)).2.1
  · exact (C3_rotation tPrims tDirs 100 (fun i => i) hC3 [104, 105] hndB
      100 0 (List.replicate 16 55) [21] (by decide) (by decide) (by decide)
      (by decide) rfl rfl rfl rfl (by decide) (fun m k i => rfl)).2.2.2.2.2.1
  · exact (C3_rotation tPrims tDirs 100 (fun i => i) hC3 [104, 105] hndB
      100 0 (List.replicate 16 55) [21] (by decide) (by decide) (by decide)
      (by decide) rfl rfl rfl rfl (by decide) (fun m k i => rfl)).2.2.1

/-! ### C2: first call on a fresh handler -/

/-- C2: the claim says the first `encryptTo` call on a freshly
constructed `ProtocolHandler` emits a keyed message (RECIPIENT, KEYS and
KEY_IDS records wrapping the current sender key) and sets `sentKeyId`.
The code disagrees: the constructor leaves `keyId = _sentKeyId = null`,
so `this._sentKeyId === this.keyId` holds and the *follow-up* branch is
taken (under a fresh random key that is never stored), which then faults
with a TypeError when `tlvstore.toTlvRecord` reads `null.length` for the
KEY_IDS record.  No keyed message is ever produced by a first call. -/
theorem C2_first_call_bug (P : Prims) (D : Dirs) (today : Nat) (r : Nat → Nat)
    (own cu ed pub message destination : Str) :
    (ProtocolHandler own cu ed pub).sentKeyId
        = (ProtocolHandler own cu ed pub).keyId ∧
    encryptTo P D today r (ProtocolHandler own cu ed pub) message destination
        = (.error .typeError, ProtocolHandler own cu ed pub) := by
  constructor
  · rfl
  · simp [encryptTo, ProtocolHandler, alookup2, alookup, jsKey,
      ROTATE_KEY_EVERY, jsNullStr]

/-! ### C7: ordering enforcement -/

/-- C7: `decryptFrom` fails (at the parse step, `MalformedMessage`) on
every wire message whose well-formed TLV record stream has type codes
that are not non-decreasing. -/
theorem C7_ordering_enforcement (P : Prims) (D : Dirs) (h : Handler)
    (sender : Str) (v0 : Nat) (body : Str) (recs : List (Nat × Str))
    (hrec : tlvRecords body = some recs)
    (hord : typesOrdered 0 (recs.map Prod.fst) = false) :
    decryptFrom P D h (v0 :: body) sender = (.error .malformedMessage, h) := by
  have hloop := parseLoopF_not_ordered P (body.length + 1) body recs 0
    { protocolVersion := (v0 :: body).head?, signature := none,
      signedContent := [], type := none, nonce := none, recipients := [],
      keys := [], keyIds := [], payload := none } hrec hord
  unfold decryptFrom _parseMessageContent
  simp only [List.tail_cons]
  rw [hloop]

/-- Witness for C7: the KEY_IDS-before-NONCE message is rejected as
malformed. -/
theorem C7_ordering_enforcement_witness :
    decryptFrom tPrims tDirs tReceiver msgC7 hndA
      = (.error .malformedMessage, tReceiver) := by
  exact C7_ordering_enforcement tPrims tDirs tReceiver hndA PROTOCOL_VERSION
    (toTlvRecord TLV.KEY_IDS [0, 100, 0, 0]
      ++ toTlvRecord TLV.NONCE (List.replicate 12 1))
    [(TLV.KEY_IDS, [0, 100, 0, 0]), (TLV.NONCE, List.replicate 12 1)]
    (by decide) (by decide)

/-! ### C8: repeated record types -/

/-- C8 counterexample: the claim says parsing rejects every wire message
in which a record type other than RECIPIENT/KEYS occurs more than once.
The code only enforces *non-decreasing* type codes (`tlvType <
lastTlvType`), so equal consecutive codes pass: this message carries two
NONCE records (type 3) yet parses successfully. -/
theorem C8_counterexample :
    (_parseMessageContent tPrims
        (PROTOCOL_VERSION :: (toTlvRecord TLV.NONCE (List.replicate 12 1)
          ++ toTlvRecord TLV.NONCE (List.replicate 12 2)))).isSome = true := by
  decide

/-- C8 amended: parsing rejects a message only for a strictly decreasing
adjacent pair of type codes (or a RECIPIENT/KEYS count mismatch); any
record type — not just RECIPIENT/KEYS — may repeat consecutively.  Every
well-formed TLV stream with non-decreasing type codes in which the
RECIPIENT and KEYS counts agree (or RECIPIENT is absent) parses
successfully. -/
theorem C8_repeats_accepted (P : Prims) (v0 : Nat) (body : Str)
    (recs : List (Nat × Str)) (hrec : tlvRecords body = some recs)
    (hord : typesOrdered 0 (recs.map Prod.fst) = true)
    (hcount : (recs.map Prod.fst).count TLV.RECIPIENT = 0 ∨
      (recs.map Prod.fst).count TLV.RECIPIENT
        = (recs.map Prod.fst).count TLV.KEYS) :
    ∃ pc, _parseMessageContent P (v0 :: body) = some pc := by
  obtain ⟨pc2, hpc2, hr, hk⟩ := parseLoopF_ordered P (body.length + 1) body recs 0
    { protocolVersion := (v0 :: body).head?, signature := none,
      signedContent := [], type := none, nonce := none, recipients := [],
      keys := [], keyIds := [], payload := none } hrec hord
  refine ⟨pc2, ?_⟩
  unfold _parseMessageContent
  simp only [List.tail_cons]
  rw [hpc2]
  simp only [hr, hk]
  rcases hcount with h0 | heq
  · rw [if_neg (by simp [h0])]
  · rw [if_neg (by simp [heq])]

/-- Witness for C8 (amended): a message with two MESSAGE_TYPE records
parses. -/
theorem C8_repeats_accepted_witness :
    ∃ pc, _parseMessageContent tPrims
      (PROTOCOL_VERSION :: (toTlvRecord TLV.MESSAGE_TYPE [0]
        ++ toTlvRecord TLV.MESSAGE_TYPE [1])) = some pc := by
  exact C8_repeats_accepted tPrims PROTOCOL_VERSION
    (toTlvRecord TLV.MESSAGE_TYPE [0] ++ toTlvRecord TLV.MESSAGE_TYPE [1])
    [(TLV.MESSAGE_TYPE, [0]), (TLV.MESSAGE_TYPE, [1])]
    (by decide) (by decide) (by decide)

end Strongvelope
